import Mathlib

/-!
# Session layer of `gotunnel` (`src/transport/session.go`, package `gnet`)

A shallow embedding of the per-session state machine: the incoming
dispatcher (`handleIncoming`, `handleDataPacket`, `handleStatePacket`,
`handleInfoPacket`), the reassembly loop over the reorder queue, the outgoing
framer (`packData`, `packState`, `sendInfo`), the public calls (`Send`,
`FinishSend`, `FinishRead`, `AbortSend`, `AbortRead`, ...), the heartbeat
checks and the delivery worker `startMessageDeliver`.

Conventions of the embedding.

* A byte is a natural number below 256; a byte slice is a `List Nat`.
  Decoders reduce every byte modulo 256, which is the identity on bytes.
* `uint32` and `uint64` fields are naturals; every arithmetic operation of the
  source is followed by an explicit `% 2 ^ 32` or `% 2 ^ 64`.
* The session is mutated in place by the source; here every operation takes
  the session and returns the new one.  An index or slice expression that is
  out of range panics in Go: such an operation returns `none`.  Slice bounds
  are checked against the length (capacity = length); where a larger
  capacity would let `data[:4]` pass, the next statement `data[4:]` fails on
  the same inputs.
* A send on a channel is recorded by appending to a list held in the session:
  `message` is the sequence of values sent on `self.message` (the messages
  produced for the consumer), `sendQueue` and `infoChan` the values sent to
  `sendQueue.In` and `infoChan.In`.  The goroutines, the channel plumbing and
  the `Time` stamp of a message are not part of the embedding.
* `time.Now().Unix()` is an argument `now` of the operations that read it.
-/

namespace Gnet

/-! ## Constants declared outside `session.go` -/

/-- Modelled from the spec: the half-state constants `NORMAL`, `FINISH`,
`ABORT` are declared outside `session.go`; the spec gives the domain
`{NORMAL, FINISH, ABORT}` of three distinct values. `Send` returns one of
them as its result code. -/
inductive HalfState where
  | NORMAL
  | FINISH
  | ABORT
  deriving DecidableEq, Repr

/-- Modelled from the spec: the tags `DATA`, `STATE`, `INFO` of `ToSend.tag`
and `Message.Tag` are declared outside `session.go`; the spec says they are
fixed constants with distinct values. -/
inductive Tag where
  | DATA
  | STATE
  | INFO
  deriving DecidableEq, Repr

/-- Modelled from the spec: the wire constants (packet type bytes and state
code bytes) are declared outside `session.go`.  Their values are not fixed by
the spec, only that they are single bytes with distinct values, so they are
taken as a parameter of every operation. -/
structure Consts where
  SESSION_PACKET_TYPE_DATA : Nat
  SESSION_PACKET_TYPE_STATE : Nat
  SESSION_PACKET_TYPE_INFO : Nat
  STATE_FINISH_SEND : Nat
  STATE_FINISH_READ : Nat
  STATE_ABORT_SEND : Nat
  STATE_ABORT_READ : Nat
  STATE_STOP : Nat
  typesDistinct : [SESSION_PACKET_TYPE_DATA, SESSION_PACKET_TYPE_STATE,
    SESSION_PACKET_TYPE_INFO].Nodup
  statesDistinct : [STATE_FINISH_SEND, STATE_FINISH_READ, STATE_ABORT_SEND,
    STATE_ABORT_READ, STATE_STOP].Nodup
  typesBytes : ∀ b ∈ [SESSION_PACKET_TYPE_DATA, SESSION_PACKET_TYPE_STATE,
    SESSION_PACKET_TYPE_INFO], b < 256
  statesBytes : ∀ b ∈ [STATE_FINISH_SEND, STATE_FINISH_READ, STATE_ABORT_SEND,
    STATE_ABORT_READ, STATE_STOP], b < 256

/-- One admissible choice of the wire constants (the packet type bytes are the
illustrative ones of the spec's wire-format table). -/
def sampleConsts : Consts where
  SESSION_PACKET_TYPE_DATA := 1
  SESSION_PACKET_TYPE_STATE := 2
  SESSION_PACKET_TYPE_INFO := 3
  STATE_FINISH_SEND := 0
  STATE_FINISH_READ := 1
  STATE_ABORT_SEND := 2
  STATE_ABORT_READ := 3
  STATE_STOP := 4
  typesDistinct := by decide
  statesDistinct := by decide
  typesBytes := by decide
  statesBytes := by decide

/-! ## Big-endian integers (`encoding/binary`) -/

/-- The four bytes `binary.Write(buf, binary.BigEndian, v)` appends for a
`uint32`. -/
def putU32 (v : Nat) : List Nat :=
  [v / 2 ^ 24 % 256, v / 2 ^ 16 % 256, v / 2 ^ 8 % 256, v % 256]

/-- The eight bytes `binary.Write(buf, binary.BigEndian, v)` appends for a
`uint64`. -/
def putU64 (v : Nat) : List Nat :=
  [v / 2 ^ 56 % 256, v / 2 ^ 48 % 256, v / 2 ^ 40 % 256, v / 2 ^ 32 % 256,
   v / 2 ^ 24 % 256, v / 2 ^ 16 % 256, v / 2 ^ 8 % 256, v % 256]

/-- Big-endian value of a byte string (most significant byte first). -/
def beValue (bs : List Nat) : Nat :=
  bs.foldl (fun acc b => acc * 256 + b % 256) 0

/-- The call `binary.Read(reader, binary.BigEndian, &x)` for an `n`-byte
unsigned integer on a reader with `bs` left: the value read (`none` when
fewer than `n` bytes are left; the error is ignored by every caller and `x`
keeps its value) and what is left of the reader (`io.ReadFull` consumes the
short tail). -/
def binaryRead (n : Nat) (bs : List Nat) : Option Nat × List Nat :=
  if n ≤ bs.length then (some (beValue (bs.take n)), bs.drop n) else (none, [])

/-! ## Data model -/

/-- The reordering record `Packet` (the `index` field is bookkeeping of the
heap and is not modelled). -/
structure Packet where
  serial : Nat
  data : List Nat
  deriving DecidableEq, Repr

/-- A value of type `Message` delivered to the consumer (without `Time`). -/
structure Message where
  Tag : Tag
  Data : List Nat
  State : Nat
  deriving DecidableEq, Repr

/-- A value of type `ToSend` handed to the pool (without the session
pointer). -/
structure ToSend where
  tag : Tag
  data : List Nat
  deriving DecidableEq, Repr

/-- The fields of `Session` that the state machine reads or writes, and the
record of what it has sent on its channels. -/
structure Session where
  id : Nat
  serial : Nat
  closed : Bool
  incomingSerial : Nat
  maxIncomingSerial : Nat
  sendQueue : List ToSend
  infoChan : List ToSend
  readState : HalfState
  sendState : HalfState
  remoteReadState : HalfState
  remoteSendState : HalfState
  remoteReadFinishAt : Nat
  remoteSendFinishAt : Nat
  incomingDataCount : Nat
  packetQueue : List Packet
  message : List Message
  lastRemoteHeartbeatTime : Nat
  lastRemoteHeartbeatTimeLocal : Nat
  lastRemoteCurSerial : Nat
  lastRemoteMaxSerial : Nat
  BytesRead : Nat
  BytesSent : Nat
  RemoteBytesRead : Nat
  RemoteBytesSent : Nat
  deriving DecidableEq, Repr

/-- The session built by `newSession`: `incomingSerial` is 1, the four
half-states are `NORMAL`, every other field has its zero value, the reorder
queue is empty and nothing has been sent yet. -/
def newSession (id : Nat) : Session where
  id := id
  serial := 0
  closed := false
  incomingSerial := 1
  maxIncomingSerial := 0
  sendQueue := []
  infoChan := []
  readState := HalfState.NORMAL
  sendState := HalfState.NORMAL
  remoteReadState := HalfState.NORMAL
  remoteSendState := HalfState.NORMAL
  remoteReadFinishAt := 0
  remoteSendFinishAt := 0
  incomingDataCount := 0
  packetQueue := []
  message := []
  lastRemoteHeartbeatTime := 0
  lastRemoteHeartbeatTimeLocal := 0
  lastRemoteCurSerial := 0
  lastRemoteMaxSerial := 0
  BytesRead := 0
  BytesSent := 0
  RemoteBytesRead := 0
  RemoteBytesSent := 0

/-! ## Reorder queue -/

/-- Modelled from the spec: `PacketQueue` and its `heap.Interface` methods are
declared outside `session.go`.  The spec describes a min-heap over `Packet`
keyed by `serial` with push, pop-min and len; it is modelled by the list of
its packets kept in ascending order of serial.  `heapPush` is
`heap.Push(queue, packet)`. -/
def heapPush (q : List Packet) (p : Packet) : List Packet :=
  match q with
  | [] => [p]
  | x :: rest => if p.serial ≤ x.serial then p :: x :: rest else x :: heapPush rest p

/-- Modelled from the spec: `heap.Pop(queue)` on the min-heap `PacketQueue`
(declared outside `session.go`) removes and returns a packet of least serial;
`none` on the empty queue. -/
def heapPop (q : List Packet) : Option (Packet × List Packet) :=
  match q with
  | [] => none
  | x :: rest => some (x, rest)

/-! ## Producing messages -/

/-- The method `pushState`: send a `STATE` message on `self.message`. -/
def pushState (s : Session) (state : Nat) : Session :=
  { s with message := s.message ++ [{ Tag := Tag.STATE, Data := [], State := state }] }

/-- The method `pushData`: send the `DATA` message, run the two deferred
finish checks, add the payload length to `BytesRead`. -/
def pushData (w : Consts) (s : Session) (packet : Packet) : Session :=
  let s1 : Session :=
    { s with message := s.message ++ [{ Tag := Tag.DATA, Data := packet.data, State := 0 }] }
  let s2 : Session :=
    if s1.remoteReadState = HalfState.FINISH ∧ packet.serial ≥ s1.remoteReadFinishAt then
      pushState { s1 with sendState := HalfState.FINISH } w.STATE_FINISH_READ
    else s1
  let s3 : Session :=
    if s2.remoteSendState = HalfState.FINISH ∧ packet.serial ≥ s2.remoteSendFinishAt then
      pushState { s2 with readState := HalfState.FINISH } w.STATE_ABORT_SEND
    else s2
  { s3 with BytesRead := (s3.BytesRead + packet.data.length) % 2 ^ 64 }

/-! ## Incoming dispatcher -/

/-- The loop `for self.packetQueue.Len() > 0 { ... }` of `handleDataPacket`.
The first argument bounds the number of iterations; every iteration that does
not leave the loop removes one packet from the queue, so the length of the
queue is enough (`drainLoop_fuel`). -/
def drainLoop (w : Consts) : Nat → Session → Session
  | 0, s => s
  | fuel + 1, s =>
    match heapPop s.packetQueue with
    | none => s
    | some (next, rest) =>
      let s1 : Session := { s with packetQueue := rest }
      if next.serial = s1.incomingSerial then
        let s2 := pushData w s1 next
        drainLoop w fuel { s2 with incomingSerial := (s2.incomingSerial + 1) % 2 ^ 32 }
      else
        { s1 with packetQueue := heapPush s1.packetQueue next }

/-- The reassembly loop of `handleDataPacket` run to completion. -/
def drain (w : Consts) (s : Session) : Session :=
  drainLoop w s.packetQueue.length s

/-- The branch `if serial == self.incomingSerial { ... } else if serial >
self.incomingSerial { ... }` of `handleDataPacket`: deliver the packet, or
store it in the reorder queue, or neither. -/
def admitPacket (w : Consts) (s : Session) (packet : Packet) : Session :=
  if packet.serial = s.incomingSerial then
    let t := pushData w s packet
    { t with incomingSerial := (t.incomingSerial + 1) % 2 ^ 32 }
  else if packet.serial > s.incomingSerial then
    { s with packetQueue := heapPush s.packetQueue packet }
  else s

/-- The statement `if serial > self.maxIncomingSerial { self.maxIncomingSerial
= serial }` of `handleDataPacket`. -/
def noteMaxSerial (s : Session) (serial : Nat) : Session :=
  if serial > s.maxIncomingSerial then { s with maxIncomingSerial := serial } else s

/-- The method `handleDataPacket` on the packet body after the type byte:
count the packet, parse the serial (`data[:4]`, or else `data = data[4:]`,
panics on a body shorter than four bytes), admit the packet, note the largest
serial, run the reassembly loop. -/
def handleDataPacket (w : Consts) (s : Session) (data : List Nat) : Option Session :=
  let s0 : Session := { s with incomingDataCount := (s.incomingDataCount + 1) % 2 ^ 32 }
  if data.length < 4 then none
  else
    let serial := beValue (data.take 4)
    let packet : Packet := { serial := serial, data := data.drop 4 }
    some (drain w (noteMaxSerial (admitPacket w s0 packet) serial))

/-- The value left in `serial` by `binary.Read(bytes.NewReader(frame[1:]),
binary.BigEndian, &serial)` on a fresh `var serial uint32`: zero when fewer
than four bytes follow the state byte. -/
def readFinishAt (extra : List Nat) : Nat :=
  ((binaryRead 4 extra).1).getD 0

/-- The method `handleStatePacket` on the packet body after the type byte.
`frame[0]` panics on an empty body. -/
def handleStatePacket (w : Consts) (s : Session) (frame : List Nat) : Option Session :=
  match frame with
  | [] => none
  | state :: extra =>
    if state = w.STATE_FINISH_SEND then
      let s1 : Session :=
        { s with remoteSendState := HalfState.FINISH, remoteSendFinishAt := readFinishAt extra }
      if s1.remoteSendState = HalfState.FINISH ∧ s1.incomingSerial ≥ s1.remoteSendFinishAt then
        some (pushState { s1 with readState := HalfState.FINISH } w.STATE_FINISH_SEND)
      else some s1
    else if state = w.STATE_FINISH_READ then
      let s1 : Session :=
        { s with remoteReadState := HalfState.FINISH, remoteReadFinishAt := readFinishAt extra }
      if s1.remoteReadState = HalfState.FINISH ∧ s1.incomingSerial ≥ s1.remoteReadFinishAt then
        some (pushState { s1 with sendState := HalfState.FINISH } w.STATE_FINISH_READ)
      else some s1
    else if state = w.STATE_ABORT_SEND then
      some (pushState
        { s with remoteSendState := HalfState.ABORT, readState := HalfState.ABORT }
        w.STATE_ABORT_SEND)
    else if state = w.STATE_ABORT_READ then
      some (pushState
        { s with remoteReadState := HalfState.ABORT, sendState := HalfState.ABORT }
        w.STATE_ABORT_READ)
    else some s

/-- The method `handleInfoPacket` on the packet body after the type byte, at
local time `now` (seconds).  The five `binary.Read` calls share one reader; a
failed read leaves its destination as it was (zero for the three locals). -/
def handleInfoPacket (now : Nat) (s : Session) (data : List Nat) : Session :=
  let r0 := binaryRead 4 data
  let timestamp := r0.1.getD 0
  if timestamp < s.lastRemoteHeartbeatTime then s
  else
    let r1 := binaryRead 4 r0.2
    let curSerial := r1.1.getD 0
    let r2 := binaryRead 4 r1.2
    let maxSerial := r2.1.getD 0
    let r3 := binaryRead 8 r2.2
    let r4 := binaryRead 8 r3.2
    { s with
      RemoteBytesRead := r3.1.getD s.RemoteBytesRead
      RemoteBytesSent := r4.1.getD s.RemoteBytesSent
      lastRemoteHeartbeatTime := timestamp
      lastRemoteHeartbeatTimeLocal := now % 2 ^ 32
      lastRemoteCurSerial := curSerial
      lastRemoteMaxSerial := maxSerial }

/-- The method `handleIncoming` at local time `now`.  `packet[0]` panics on
the empty packet; an unknown packet type is ignored. -/
def handleIncoming (w : Consts) (now : Nat) (s : Session) (packet : List Nat) :
    Option Session :=
  match packet with
  | [] => none
  | packetType :: body =>
    if packetType = w.SESSION_PACKET_TYPE_DATA then handleDataPacket w s body
    else if packetType = w.SESSION_PACKET_TYPE_STATE then handleStatePacket w s body
    else if packetType = w.SESSION_PACKET_TYPE_INFO then some (handleInfoPacket now s body)
    else some s

/-- The run loop handling a sequence of inbound packets one by one, each with
the local time at which it is handled. -/
def handleAll (w : Consts) (s : Session) : List (Nat × List Nat) → Option Session
  | [] => some s
  | (now, packet) :: rest =>
    match handleIncoming w now s packet with
    | none => none
    | some s1 => handleAll w s1 rest

/-! ## Outgoing framer and public calls -/

/-- The method `packData`: increment `serial` and frame the payload. -/
def packData (w : Consts) (s : Session) (data : List Nat) : Session × List Nat :=
  let serial := (s.serial + 1) % 2 ^ 32
  ({ s with serial := serial }, [w.SESSION_PACKET_TYPE_DATA] ++ putU32 serial ++ data)

/-- The method `packState`. -/
def packState (w : Consts) (state : Nat) (extra : List Nat) : List Nat :=
  [w.SESSION_PACKET_TYPE_STATE] ++ [state] ++ extra

/-- The method `Send`: the new session and the returned code. -/
def Send (w : Consts) (s : Session) (data : List Nat) : Session × HalfState :=
  if s.closed then (s, HalfState.ABORT)
  else if s.remoteReadState = HalfState.ABORT then (s, HalfState.ABORT)
  else
    let r := packData w s data
    let s1 : Session := { r.1 with sendQueue := r.1.sendQueue ++ [{ tag := Tag.DATA, data := r.2 }] }
    ({ s1 with BytesSent := (s1.BytesSent + data.length) % 2 ^ 64 }, HalfState.NORMAL)

/-- The method `FinishSend`. -/
def FinishSend (w : Consts) (s : Session) : Session :=
  let s1 : Session := { s with sendState := HalfState.FINISH }
  { s1 with sendQueue := s1.sendQueue ++
      [{ tag := Tag.STATE, data := packState w w.STATE_FINISH_SEND (putU32 s1.serial) }] }

/-- The method `FinishRead`. -/
def FinishRead (w : Consts) (s : Session) : Session :=
  let s1 : Session := { s with readState := HalfState.FINISH }
  { s1 with sendQueue := s1.sendQueue ++
      [{ tag := Tag.STATE, data := packState w w.STATE_FINISH_READ (putU32 s1.serial) }] }

/-- The method `Finish`. -/
def Finish (w : Consts) (s : Session) : Session :=
  FinishSend w (FinishRead w s)

/-- The method `AbortSend`. -/
def AbortSend (w : Consts) (s : Session) : Session :=
  let s1 : Session := { s with sendState := HalfState.ABORT }
  { s1 with sendQueue := s1.sendQueue ++
      [{ tag := Tag.STATE, data := packState w w.STATE_ABORT_SEND [] }] }

/-- The method `AbortRead`. -/
def AbortRead (w : Consts) (s : Session) : Session :=
  let s1 : Session := { s with readState := HalfState.ABORT }
  { s1 with sendQueue := s1.sendQueue ++
      [{ tag := Tag.STATE, data := packState w w.STATE_ABORT_READ [] }] }

/-- The method `Abort`. -/
def Abort (w : Consts) (s : Session) : Session :=
  AbortRead w (AbortSend w s)

/-- A sequence of `Send` calls, one per payload, results discarded (as the run
loop does for `self.C`). -/
def sendAll (w : Consts) (s : Session) : List (List Nat) → Session
  | [] => s
  | data :: rest => sendAll w (Send w s data).1 rest

/-! ## Wire form of inbound packets -/

/-- The inbound DATA packet that carries `p`: type byte, serial, payload. -/
def dataFrame (w : Consts) (p : Packet) : List Nat :=
  [w.SESSION_PACKET_TYPE_DATA] ++ putU32 p.serial ++ p.data

/-- The inbound STATE packet with state byte `state` and trailing bytes
`extra`. -/
def stateFrame (w : Consts) (state : Nat) (extra : List Nat) : List Nat :=
  [w.SESSION_PACKET_TYPE_STATE] ++ [state] ++ extra

/-- The `DATA` message that `pushData` produces for a packet. -/
def dataMessage (p : Packet) : Message :=
  { Tag := Tag.DATA, Data := p.data, State := 0 }

/-- The `STATE` message that `pushState` produces for a state code. -/
def stateMessage (state : Nat) : Message :=
  { Tag := Tag.STATE, Data := [], State := state }

/-! ## Heartbeat, run-loop events, delivery worker, and the predicates used in the statements -/

open HalfState

/-- A session on which `Send` is admitted: not closed, peer has not aborted
reading. -/
def Sendable (s : Session) : Prop :=
  s.closed = false ∧ s.remoteReadState ≠ ABORT

/-- Number of `STATE` messages in a list of messages. -/
def stateMessageCount (ms : List Message) : Nat :=
  (ms.filter (fun m => decide (m.Tag = Tag.STATE))).length

/-- Number of the two local half-states whose value differs between two
sessions. -/
def halfStateChanges (s s' : Session) : Nat :=
  (if s.sendState = s'.sendState then 0 else 1) + (if s.readState = s'.readState then 0 else 1)

/-- Messages of `s'` extend those of `s`, with at least as many new `STATE`
messages as there are local half-states that changed. -/
def StateStep (s s' : Session) : Prop :=
  ∃ new, s'.message = s.message ++ new ∧ halfStateChanges s s' ≤ stateMessageCount new

/-- What `Send` reads or writes is the same in both sessions. -/
def KeepsSendSide (s s' : Session) : Prop :=
  s'.closed = s.closed ∧ s'.remoteReadState = s.remoteReadState ∧ s'.serial = s.serial ∧
  s'.sendQueue = s.sendQueue ∧ s'.BytesSent = s.BytesSent

/-- The elementary updates out of which the data path is built. -/
structure DataPathClosed (w : Consts) (R : Session → Session → Prop) : Prop where
  refl : ∀ s, R s s
  trans : ∀ s t u, R s t → R t u → R s u
  queue : ∀ s q, R s { s with packetQueue := q }
  incoming : ∀ s n, R s { s with incomingSerial := n }
  count : ∀ s n, R s { s with incomingDataCount := n }
  maxIncoming : ∀ s n, R s { s with maxIncomingSerial := n }
  push : ∀ s p, R s (pushData w s p)

/-- An inbound packet that `handleIncoming` dispatches to the
`STATE_FINISH_READ` case of `handleStatePacket`. -/
def isFinishReadPacket (w : Consts) (packet : List Nat) : Bool :=
  match packet with
  | t :: st :: _ => decide (t = w.SESSION_PACKET_TYPE_STATE) && decide (st = w.STATE_FINISH_READ)
  | _ => false

/-- Neither deferred finish check of `pushData` can fire. -/
def Quiet (s : Session) : Prop :=
  s.remoteReadState ≠ FINISH ∧ s.remoteSendState ≠ FINISH

/-- The queue after the reassembly loop has stopped on `rest`: the packet it
popped last is pushed back. -/
def requeue (rest : List Packet) : List Packet :=
  match rest with
  | [] => []
  | hd :: tl => heapPush tl hd

/-- Outcome of the reassembly loop on a quiet session: the queue splits into
the packets delivered and the packets left. -/
structure Drained (s s' : Session) (taken rest : List Packet) : Prop where
  split : s.packetQueue = taken ++ rest
  serials : taken.map (fun p => p.serial) = List.range' s.incomingSerial taken.length
  stop : ∀ hd ∈ rest.head?, hd.serial ≠ s.incomingSerial + taken.length
  message : s'.message = s.message ++ taken.map dataMessage
  incoming : s'.incomingSerial = s.incomingSerial + taken.length
  queue : s'.packetQueue = requeue rest
  quiet : Quiet s'

/-- The packets `ds` are what has been delivered: the messages produced are
their `DATA` messages, in order, and their serials are `1, 2, ...,
incomingSerial - 1`. -/
def Delivered (s : Session) (ds : List Packet) : Prop :=
  s.message = ds.map dataMessage ∧
  ds.map (fun p => p.serial) = List.range' 1 (s.incomingSerial - 1) ∧
  1 ≤ s.incomingSerial

/-- Invariant of the data path for arbitrary arrivals `arrived`: what was
delivered and what waits in the reorder queue came from distinct arrivals. -/
def Core (arrived : List Packet) (s : Session) : Prop :=
  Quiet s ∧ ∃ ds, Delivered s ds ∧ (ds ++ s.packetQueue).Subperm arrived

/-- Invariant of the data path when no serial arrives twice: the arrivals are
exactly what was delivered together with what waits in the reorder queue, and
the queue is strictly ascending with every serial at least `gap` ahead of
`incomingSerial`. -/
def Exact (gap : Nat) (arrived : List Packet) (s : Session) : Prop :=
  Quiet s ∧ ∃ ds, Delivered s ds ∧ (ds ++ s.packetQueue).Perm arrived ∧
    s.packetQueue.Pairwise (fun a b => a.serial < b.serial) ∧
    ∀ p ∈ s.packetQueue, s.incomingSerial + gap ≤ p.serial

/-- The method `sendInfo` at local time `now`: frame the INFO packet and send
it on `infoChan.In`. -/
def sendInfo (w : Consts) (now : Nat) (s : Session) : Session :=
  { s with infoChan := s.infoChan ++ [ToSend.mk Tag.INFO
      ([w.SESSION_PACKET_TYPE_INFO] ++ putU32 (now % 2 ^ 32) ++ putU32 s.incomingSerial ++
        putU32 s.maxIncomingSerial ++ putU64 s.BytesRead ++ putU64 s.BytesSent)] }

/-- The method `checkState`. -/
def checkState (s : Session) : Bool :=
  if s.sendState = FINISH ∨ s.sendState = ABORT then
    if s.readState = FINISH ∨ s.readState = ABORT then true else false
  else false

/-- The method `checkRemoteConnectivity` at local time `now`; the subtraction
is that of `uint32`. -/
def checkRemoteConnectivity (now : Nat) (s : Session) : Bool :=
  if s.lastRemoteHeartbeatTimeLocal > 0 then
    if (now % 2 ^ 32 + 2 ^ 32 - s.lastRemoteHeartbeatTimeLocal % 2 ^ 32) % 2 ^ 32 > 10 then true
    else false
  else false

/-- The timestamp that `handleInfoPacket` reads from the body of an INFO
packet. -/
def infoTimestamp (data : List Nat) : Nat :=
  ((binaryRead 4 data).1).getD 0

/-- The recorded peer timestamp does not decrease from `s` to `s'`. -/
def HeartbeatMonotone (s s' : Session) : Prop :=
  s.lastRemoteHeartbeatTime ≤ s'.lastRemoteHeartbeatTime

/-- Sum of the payload lengths of the `DATA` messages in a list of messages. -/
def dataBytes (ms : List Message) : Nat :=
  ((ms.filter (fun m => decide (m.Tag = Tag.DATA))).map (fun m => m.Data.length)).sum

/-- `BytesRead` is the sum, modulo `2 ^ 64`, of the payload lengths of the
`DATA` messages produced. -/
def BytesReadInv (s : Session) : Prop :=
  s.BytesRead = dataBytes s.message % 2 ^ 64

/-- The step from `s` to `s'` keeps `BytesReadInv`. -/
def KeepsBytesRead (s s' : Session) : Prop :=
  BytesReadInv s → BytesReadInv s'

/-- The method `Stop`, as far as the session fields go: `closed` is set.
Closing the `stop` channel and waiting for `Stopped` are not modelled. -/
def Stop (s : Session) : Session :=
  { s with closed := true }

/-- What the run loop and the callers of the public API can do to a session
between two heartbeat ticks: handle an inbound packet at a local time, or one
of the public calls. -/
inductive Event where
  | incoming (now : Nat) (packet : List Nat)
  | send (data : List Nat)
  | finishSend
  | finishRead
  | finish
  | abortSend
  | abortRead
  | abort
  | stop

/-- One event applied to the session (`none`: the handler panicked). -/
def step (w : Consts) (s : Session) : Event → Option Session
  | Event.incoming now packet => handleIncoming w now s packet
  | Event.send data => some (Send w s data).1
  | Event.finishSend => some (FinishSend w s)
  | Event.finishRead => some (FinishRead w s)
  | Event.finish => some (Finish w s)
  | Event.abortSend => some (AbortSend w s)
  | Event.abortRead => some (AbortRead w s)
  | Event.abort => some (Abort w s)
  | Event.stop => some (Stop s)

/-- A sequence of events applied one after the other. -/
def runEvents (w : Consts) (s : Session) : List Event → Option Session
  | [] => some s
  | e :: rest =>
    match step w s e with
    | none => none
    | some s1 => runEvents w s1 rest

/-- The `case <-heartBeat:` arm of the run loop: send the INFO packet (clock
read `nowInfo`), then decide whether to leave the loop (`checkState`, then
`checkRemoteConnectivity` with clock read `nowCheck`). -/
def heartBeat (w : Consts) (nowInfo nowCheck : Nat) (s : Session) : Session × Bool :=
  let s1 := sendInfo w nowInfo s
  if checkState s1 then (s1, true)
  else if checkRemoteConnectivity nowCheck s1 then (s1, true)
  else (s1, false)

/-- Neither local half-state is `NORMAL`. -/
def BothClosed (s : Session) : Prop :=
  s.sendState ≠ NORMAL ∧ s.readState ≠ NORMAL

/-- The step from `s` to `s'` keeps `BothClosed`. -/
def KeepsBothClosed (s s' : Session) : Prop :=
  BothClosed s → BothClosed s'

/-- The reassembly fields are consistent before the reassembly loop runs: the
queue is in ascending order of serial, no queued serial exceeds
`maxIncomingSerial`, and `incomingSerial` is a `uint32` at most one above
`maxIncomingSerial`. -/
def Ordered (s : Session) : Prop :=
  s.packetQueue.Pairwise (fun a b => a.serial ≤ b.serial) ∧
  (∀ p ∈ s.packetQueue, p.serial ≤ s.maxIncomingSerial) ∧
  s.incomingSerial ≤ s.maxIncomingSerial + 1 ∧
  s.incomingSerial < 2 ^ 32

/-- The reassembly fields between two inbound packets: `Ordered`, and the
packet at the head of the queue is not the one expected next. -/
def Settled (s : Session) : Prop :=
  Ordered s ∧ ∀ hd ∈ s.packetQueue.head?, hd.serial ≠ s.incomingSerial

/-- The delivery worker `startMessageDeliver`: its buffer `messageBuffer`
(front first), the values it has received from `self.message` and the values
it has sent on `self.Message`, both in order, and whether it has returned. -/
structure Deliver where
  messageBuffer : List Message
  received : List Message
  delivered : List Message
  returned : Bool
  deriving DecidableEq, Repr

/-- The `select` case taken in one iteration of `startMessageDeliver`. -/
inductive DeliverEvent where
  | accept (value : Message)
  | handOver
  | stopDeliver
  deriving DecidableEq, Repr

/-- The worker as `newSession` starts it: empty buffer, nothing received or
delivered. -/
def newDeliver : Deliver :=
  { messageBuffer := [], received := [], delivered := [], returned := false }

/-- One iteration of the loop of `startMessageDeliver` taking the given
`select` case; `none` when the case cannot be taken (the worker has returned,
or `self.Message <- value` is offered only while the buffer is not empty).
`accept` is `PushFront`, `handOver` sends `Back()` and removes it. -/
def deliverStep (d : Deliver) (e : DeliverEvent) : Option Deliver :=
  if d.returned then none
  else
    match e with
    | DeliverEvent.accept value =>
      some { d with messageBuffer := value :: d.messageBuffer, received := d.received ++ [value] }
    | DeliverEvent.handOver =>
      match d.messageBuffer.getLast? with
      | none => none
      | some value =>
        some { d with messageBuffer := d.messageBuffer.dropLast,
                      delivered := d.delivered ++ [value] }
    | DeliverEvent.stopDeliver => some { d with returned := true }

/-- The loop of `startMessageDeliver` along a sequence of `select` cases. -/
def startMessageDeliver (d : Deliver) : List DeliverEvent → Option Deliver
  | [] => some d
  | e :: rest =>
    match deliverStep d e with
    | none => none
    | some d1 => startMessageDeliver d1 rest

/-- What was received is what was delivered followed by the buffer read from
back to front. -/
def Fifo (d : Deliver) : Prop :=
  d.received = d.delivered ++ d.messageBuffer.reverse

/-! ## Lemmas and theorems -/

theorem beValue_putU32 (v : Nat) (h : v < 2 ^ 32) : beValue (putU32 v) = v := by
  simp only [beValue, putU32, List.foldl]
  omega

theorem putU32_length (v : Nat) : (putU32 v).length = 4 := rfl

theorem readFinishAt_putU32 (v : Nat) (h : v < 2 ^ 32) : readFinishAt (putU32 v) = v := by
  simp [readFinishAt, binaryRead, putU32_length]
  rw [show List.take 4 (putU32 v) = putU32 v from rfl]
  exact beValue_putU32 v h

theorem Send_sendable (w : Consts) (s : Session) (data : List Nat) (h : Sendable s) :
    Send w s data =
      ({ s with
          serial := (s.serial + 1) % 2 ^ 32
          sendQueue := s.sendQueue ++ [ToSend.mk Tag.DATA
            ([w.SESSION_PACKET_TYPE_DATA] ++ putU32 ((s.serial + 1) % 2 ^ 32) ++ data)]
          BytesSent := (s.BytesSent + data.length) % 2 ^ 64 }, NORMAL) := by
  obtain ⟨hc, hr⟩ := h
  simp [Send, packData, hc, hr]

theorem sendAll_sendable (w : Consts) (payloads : List (List Nat)) :
    ∀ s : Session, Sendable s → s.serial + payloads.length < 2 ^ 32 →
      Sendable (sendAll w s payloads) ∧
      (sendAll w s payloads).serial = s.serial + payloads.length ∧
      (sendAll w s payloads).sendQueue.length = s.sendQueue.length + payloads.length ∧
      (sendAll w s payloads).sendState = s.sendState := by
  induction payloads with
  | nil => intro s hs _; simp [sendAll, hs]
  | cons d rest ih =>
    intro s hs hlen
    simp only [List.length_cons] at hlen
    have hstep := Send_sendable w s d hs
    have hs1 : Sendable (Send w s d).1 := by
      rw [hstep]; exact hs
    have hser : (Send w s d).1.serial = s.serial + 1 := by
      rw [hstep]; simp; omega
    obtain ⟨h1, h2, h3, h4⟩ := ih (Send w s d).1 hs1 (by rw [hser]; omega)
    refine ⟨h1, ?_, ?_, ?_⟩
    · simp only [sendAll, h2, hser, List.length_cons]; omega
    · simp only [sendAll, h3, List.length_cons]; rw [hstep]; simp; omega
    · simp only [sendAll, h4]; rw [hstep]

theorem newSession_sendable (id : Nat) : Sendable (newSession id) := by
  simp [Sendable, newSession]

/-- Claim C9: after `k < 2 ^ 32` `Send` calls on a fresh session (all admitted:
`serial = k` and `k` entries enqueued), `FinishSend` sets `sendState` to
`FINISH` and appends to the send queue exactly one `STATE` entry whose bytes
are the STATE type byte, the `STATE_FINISH_SEND` code and the four big-endian
bytes of `k`, which the receiver reads back as `finishAt = k`. -/
theorem FinishSend_after_sends (w : Consts) (id : Nat) (payloads : List (List Nat))
    (hk : payloads.length < 2 ^ 32) :
    (sendAll w (newSession id) payloads).serial = payloads.length ∧
    (sendAll w (newSession id) payloads).sendQueue.length = payloads.length ∧
    (FinishSend w (sendAll w (newSession id) payloads)).sendState = FINISH ∧
    (FinishSend w (sendAll w (newSession id) payloads)).sendQueue =
      (sendAll w (newSession id) payloads).sendQueue ++
        [ToSend.mk Tag.STATE ([w.SESSION_PACKET_TYPE_STATE, w.STATE_FINISH_SEND] ++
          putU32 payloads.length)] ∧
    readFinishAt (putU32 payloads.length) = payloads.length := by
  obtain ⟨_, h2, h3, _⟩ := sendAll_sendable w payloads (newSession id) (newSession_sendable id)
    (by simpa [newSession] using hk)
  rw [show (newSession id).serial = 0 from rfl, Nat.zero_add] at h2
  rw [show (newSession id).sendQueue = [] from rfl, List.length_nil, Nat.zero_add] at h3
  refine ⟨h2, h3, rfl, ?_, readFinishAt_putU32 _ hk⟩
  simp [FinishSend, packState, h2]

theorem FinishSend_after_sends_witness :
    (sendAll sampleConsts (newSession 0) [[1], [2], [3], [4], [5]]).serial = 5 ∧
    (FinishSend sampleConsts (sendAll sampleConsts (newSession 0) [[1], [2], [3], [4], [5]])).sendQueue =
      (sendAll sampleConsts (newSession 0) [[1], [2], [3], [4], [5]]).sendQueue ++
        [ToSend.mk Tag.STATE [2, 0, 0, 0, 0, 5]] :=
  have h := FinishSend_after_sends sampleConsts 0 [[1], [2], [3], [4], [5]] (by decide)
  ⟨h.1, h.2.2.2.1⟩

/-- Claim C10: on a fresh session the `k`-th `Send` (`k = earlier.length + 1 <
2 ^ 32`) returns `NORMAL` and appends to the send queue the packet made of the
DATA type byte, the four big-endian bytes of `k` (the serial after the
increment, which decodes back to `k`) and the payload unchanged. -/
theorem Send_kth (w : Consts) (id : Nat) (earlier : List (List Nat)) (data : List Nat)
    (hk : earlier.length + 1 < 2 ^ 32) :
    (Send w (sendAll w (newSession id) earlier) data).2 = NORMAL ∧
    (Send w (sendAll w (newSession id) earlier) data).1.sendQueue =
      (sendAll w (newSession id) earlier).sendQueue ++
        [ToSend.mk Tag.DATA ([w.SESSION_PACKET_TYPE_DATA] ++ putU32 (earlier.length + 1) ++ data)] ∧
    (Send w (sendAll w (newSession id) earlier) data).1.serial = earlier.length + 1 ∧
    beValue (putU32 (earlier.length + 1)) = earlier.length + 1 := by
  obtain ⟨h1, h2, _, _⟩ := sendAll_sendable w earlier (newSession id) (newSession_sendable id)
    (by simp [newSession]; omega)
  rw [show (newSession id).serial = 0 from rfl, Nat.zero_add] at h2
  rw [Send_sendable w _ data h1, h2, Nat.mod_eq_of_lt hk]
  exact ⟨rfl, rfl, rfl, beValue_putU32 _ hk⟩

theorem Send_kth_witness :
    (Send sampleConsts (sendAll sampleConsts (newSession 0) [[7], [8]]) [9, 9]).1.sendQueue =
      (sendAll sampleConsts (newSession 0) [[7], [8]]).sendQueue ++
        [ToSend.mk Tag.DATA [1, 0, 0, 0, 3, 9, 9]] :=
  (Send_kth sampleConsts 0 [[7], [8]] [9, 9] (by decide)).2.1

theorem Consts.types_ne (w : Consts) :
    w.SESSION_PACKET_TYPE_DATA ≠ w.SESSION_PACKET_TYPE_STATE ∧
    w.SESSION_PACKET_TYPE_DATA ≠ w.SESSION_PACKET_TYPE_INFO ∧
    w.SESSION_PACKET_TYPE_STATE ≠ w.SESSION_PACKET_TYPE_INFO := by
  have h := w.typesDistinct
  simp only [List.nodup_cons, List.mem_cons, List.mem_singleton, not_or, List.not_mem_nil,
    not_false_eq_true, List.nodup_nil, and_true] at h
  exact ⟨h.1.1, h.1.2, h.2⟩

theorem Consts.states_ne (w : Consts) :
    w.STATE_FINISH_SEND ≠ w.STATE_FINISH_READ ∧ w.STATE_FINISH_SEND ≠ w.STATE_ABORT_SEND ∧
    w.STATE_FINISH_SEND ≠ w.STATE_ABORT_READ ∧ w.STATE_FINISH_SEND ≠ w.STATE_STOP ∧
    w.STATE_FINISH_READ ≠ w.STATE_ABORT_SEND ∧ w.STATE_FINISH_READ ≠ w.STATE_ABORT_READ ∧
    w.STATE_FINISH_READ ≠ w.STATE_STOP ∧ w.STATE_ABORT_SEND ≠ w.STATE_ABORT_READ ∧
    w.STATE_ABORT_SEND ≠ w.STATE_STOP ∧ w.STATE_ABORT_READ ≠ w.STATE_STOP := by
  have h := w.statesDistinct
  simp only [List.nodup_cons, List.mem_cons, List.mem_singleton, not_or, List.not_mem_nil,
    not_false_eq_true, List.nodup_nil, and_true] at h
  obtain ⟨⟨a, b, c, d⟩, ⟨e, f, g⟩, ⟨i, j⟩, k⟩ := h
  exact ⟨a, b, c, d, e, f, g, i, j, k⟩

theorem handleIncoming_dataFrame (w : Consts) (now : Nat) (s : Session) (p : Packet) :
    handleIncoming w now s (dataFrame w p) = handleDataPacket w s (putU32 p.serial ++ p.data) := by
  simp [handleIncoming, dataFrame]

theorem handleIncoming_stateFrame (w : Consts) (now : Nat) (s : Session) (state : Nat)
    (extra : List Nat) :
    handleIncoming w now s (stateFrame w state extra) = handleStatePacket w s (state :: extra) := by
  have h := w.types_ne
  simp [handleIncoming, stateFrame, Ne.symm h.1]

theorem handleStatePacket_abortSend (w : Consts) (s : Session) (extra : List Nat) :
    handleStatePacket w s (w.STATE_ABORT_SEND :: extra) =
      some (pushState { s with remoteSendState := ABORT, readState := ABORT } w.STATE_ABORT_SEND) := by
  have h := w.states_ne
  simp [handleStatePacket, Ne.symm h.2.1, Ne.symm h.2.2.2.2.1]

theorem handleStatePacket_abortRead (w : Consts) (s : Session) (extra : List Nat) :
    handleStatePacket w s (w.STATE_ABORT_READ :: extra) =
      some (pushState { s with remoteReadState := ABORT, sendState := ABORT } w.STATE_ABORT_READ) := by
  have h := w.states_ne
  simp [handleStatePacket, Ne.symm h.2.2.1, Ne.symm h.2.2.2.2.2.1, Ne.symm h.2.2.2.2.2.2.2.1]

theorem handleStatePacket_finishRead (w : Consts) (s : Session) (extra : List Nat) :
    handleStatePacket w s (w.STATE_FINISH_READ :: extra) =
      some (if s.incomingSerial ≥ readFinishAt extra then
        pushState { s with remoteReadState := FINISH, remoteReadFinishAt := readFinishAt extra,
                           sendState := FINISH } w.STATE_FINISH_READ
      else { s with remoteReadState := FINISH, remoteReadFinishAt := readFinishAt extra }) := by
  have h := w.states_ne
  simp only [handleStatePacket, Ne.symm h.1, if_false, if_true, true_and]
  split <;> rfl

theorem handleStatePacket_finishSend (w : Consts) (s : Session) (extra : List Nat) :
    handleStatePacket w s (w.STATE_FINISH_SEND :: extra) =
      some (if s.incomingSerial ≥ readFinishAt extra then
        pushState { s with remoteSendState := FINISH, remoteSendFinishAt := readFinishAt extra,
                           readState := FINISH } w.STATE_FINISH_SEND
      else { s with remoteSendState := FINISH, remoteSendFinishAt := readFinishAt extra }) := by
  simp only [handleStatePacket, if_true, true_and]
  split <;> rfl

theorem drainLoop_closed (w : Consts) (R : Session → Session → Prop) (hR : DataPathClosed w R) :
    ∀ fuel s, R s (drainLoop w fuel s) := by
  intro fuel
  induction fuel with
  | zero => intro s; exact hR.refl s
  | succ n ih =>
    intro s
    unfold drainLoop
    cases hq : s.packetQueue with
    | nil => simp only [heapPop]; exact hR.refl s
    | cons next rest =>
      simp only [heapPop]
      split
      · refine hR.trans _ _ _ (hR.queue s rest) ?_
        refine hR.trans _ _ _ (hR.push _ next) ?_
        exact hR.trans _ _ _ (hR.incoming _ _) (ih _)
      · exact hR.trans _ _ _ (hR.queue s rest) (hR.queue _ _)

theorem admitPacket_closed (w : Consts) (R : Session → Session → Prop)
    (hR : DataPathClosed w R) (s : Session) (p : Packet) : R s (admitPacket w s p) := by
  unfold admitPacket
  split
  · exact hR.trans _ _ _ (hR.push _ _) (hR.incoming _ _)
  · split
    · exact hR.queue _ _
    · exact hR.refl _

theorem noteMaxSerial_closed (w : Consts) (R : Session → Session → Prop)
    (hR : DataPathClosed w R) (s : Session) (n : Nat) : R s (noteMaxSerial s n) := by
  unfold noteMaxSerial
  split
  · exact hR.maxIncoming _ _
  · exact hR.refl _

theorem handleDataPacket_closed (w : Consts) (R : Session → Session → Prop)
    (hR : DataPathClosed w R) (s s' : Session) (data : List Nat)
    (h : handleDataPacket w s data = some s') : R s s' := by
  unfold handleDataPacket at h
  split at h
  · exact absurd h (by simp)
  · simp only [Option.some.injEq] at h
    subst h
    refine hR.trans _ _ _ (hR.count s ((s.incomingDataCount + 1) % 2 ^ 32)) ?_
    refine hR.trans _ _ _ ?_ (drainLoop_closed w R hR _ _)
    refine hR.trans _ _ _ ?_ (noteMaxSerial_closed w R hR _ _)
    exact admitPacket_closed w R hR _ _

theorem keepsSendSide_closed (w : Consts) : DataPathClosed w KeepsSendSide where
  refl := fun s => ⟨rfl, rfl, rfl, rfl, rfl⟩
  trans := by
    intro s t u ⟨a1, a2, a3, a4, a5⟩ ⟨b1, b2, b3, b4, b5⟩
    exact ⟨b1.trans a1, b2.trans a2, b3.trans a3, b4.trans a4, b5.trans a5⟩
  queue := fun s q => ⟨rfl, rfl, rfl, rfl, rfl⟩
  incoming := fun s n => ⟨rfl, rfl, rfl, rfl, rfl⟩
  count := fun s n => ⟨rfl, rfl, rfl, rfl, rfl⟩
  maxIncoming := fun s n => ⟨rfl, rfl, rfl, rfl, rfl⟩
  push := by
    intro s p
    unfold pushData pushState KeepsSendSide
    simp only
    split <;> split <;> exact ⟨rfl, rfl, rfl, rfl, rfl⟩

theorem stateMessageCount_append (a b : List Message) :
    stateMessageCount (a ++ b) = stateMessageCount a + stateMessageCount b := by
  simp [stateMessageCount]

theorem halfStateChanges_self (s : Session) : halfStateChanges s s = 0 := by
  simp [halfStateChanges]

theorem halfState_indicator_triangle (a b c : HalfState) :
    (if a = c then 0 else 1) ≤ (if a = b then 0 else 1) + (if b = c then 0 else 1) := by
  cases a <;> cases b <;> cases c <;> decide

theorem halfStateChanges_triangle (s t u : Session) :
    halfStateChanges s u ≤ halfStateChanges s t + halfStateChanges t u := by
  unfold halfStateChanges
  have h1 := halfState_indicator_triangle s.sendState t.sendState u.sendState
  have h2 := halfState_indicator_triangle s.readState t.readState u.readState
  omega

theorem stateStep_closed (w : Consts) : DataPathClosed w StateStep where
  refl := fun s => ⟨[], by simp, by simp [halfStateChanges_self]⟩
  trans := by
    intro s t u ⟨n1, a1, a2⟩ ⟨n2, b1, b2⟩
    refine ⟨n1 ++ n2, by rw [b1, a1, List.append_assoc], ?_⟩
    have := halfStateChanges_triangle s t u
    rw [stateMessageCount_append]
    omega
  queue := fun s q => ⟨[], by simp, by simp [halfStateChanges]⟩
  incoming := fun s n => ⟨[], by simp, by simp [halfStateChanges]⟩
  count := fun s n => ⟨[], by simp, by simp [halfStateChanges]⟩
  maxIncoming := fun s n => ⟨[], by simp, by simp [halfStateChanges]⟩
  push := by
    intro s p
    unfold pushData pushState StateStep halfStateChanges
    simp only
    split <;> split
    · exact ⟨[⟨Tag.DATA, p.data, 0⟩, ⟨Tag.STATE, [], w.STATE_FINISH_READ⟩,
        ⟨Tag.STATE, [], w.STATE_ABORT_SEND⟩], by simp,
        by simp [stateMessageCount]; split <;> split <;> simp⟩
    · exact ⟨[⟨Tag.DATA, p.data, 0⟩, ⟨Tag.STATE, [], w.STATE_FINISH_READ⟩], by simp,
        by simp [stateMessageCount]; split <;> simp⟩
    · exact ⟨[⟨Tag.DATA, p.data, 0⟩, ⟨Tag.STATE, [], w.STATE_ABORT_SEND⟩], by simp,
        by simp [stateMessageCount]; split <;> simp⟩
    · exact ⟨[⟨Tag.DATA, p.data, 0⟩], by simp, by simp [stateMessageCount]⟩

theorem handleInfoPacket_stateStep (now : Nat) (s : Session) (data : List Nat) :
    StateStep s (handleInfoPacket now s data) := by
  unfold handleInfoPacket
  simp only
  split
  · exact ⟨[], by simp, by simp [halfStateChanges_self]⟩
  · exact ⟨[], by simp, by simp [halfStateChanges]⟩

theorem handleStatePacket_stateStep (w : Consts) (s s' : Session) (frame : List Nat)
    (h : handleStatePacket w s frame = some s') : StateStep s s' := by
  unfold handleStatePacket at h
  split at h
  · exact absurd h (by simp)
  · unfold pushState at h
    simp only at h
    repeat' split at h
    all_goals
      simp only [Option.some.injEq] at h
      subst h
    · exact ⟨[⟨Tag.STATE, [], w.STATE_FINISH_SEND⟩], by simp,
        by simp [stateMessageCount, halfStateChanges]; split <;> simp⟩
    · exact ⟨[], by simp, by simp [halfStateChanges]⟩
    · exact ⟨[⟨Tag.STATE, [], w.STATE_FINISH_READ⟩], by simp,
        by simp [stateMessageCount, halfStateChanges]; split <;> simp⟩
    · exact ⟨[], by simp, by simp [halfStateChanges]⟩
    · exact ⟨[⟨Tag.STATE, [], w.STATE_ABORT_SEND⟩], by simp,
        by simp [stateMessageCount, halfStateChanges]; split <;> simp⟩
    · exact ⟨[⟨Tag.STATE, [], w.STATE_ABORT_READ⟩], by simp,
        by simp [stateMessageCount, halfStateChanges]; split <;> simp⟩
    · exact ⟨[], by simp, by simp [halfStateChanges]⟩

theorem handleIncoming_stateStep (w : Consts) (now : Nat) (s s' : Session) (packet : List Nat)
    (h : handleIncoming w now s packet = some s') : StateStep s s' := by
  unfold handleIncoming at h
  split at h
  · exact absurd h (by simp)
  · split at h
    · exact handleDataPacket_closed w StateStep (stateStep_closed w) s s' _ h
    · split at h
      · exact handleStatePacket_stateStep w s s' _ h
      · split at h
        · simp only [Option.some.injEq] at h
          subst h
          exact handleInfoPacket_stateStep now s _
        · simp only [Option.some.injEq] at h
          subst h
          exact (stateStep_closed w).refl s

theorem handleInfoPacket_keeps (now : Nat) (s : Session) (data : List Nat) :
    KeepsSendSide s (handleInfoPacket now s data) := by
  unfold handleInfoPacket
  simp only
  split <;> exact ⟨rfl, rfl, rfl, rfl, rfl⟩

theorem handleIncoming_keeps_abort (w : Consts) (now : Nat) (s s' : Session) (packet : List Nat)
    (hp : isFinishReadPacket w packet = false) (hs : s.remoteReadState = ABORT)
    (h : handleIncoming w now s packet = some s') :
    s'.remoteReadState = ABORT ∧ s'.closed = s.closed ∧ s'.sendQueue = s.sendQueue ∧
      s'.serial = s.serial ∧ s'.BytesSent = s.BytesSent := by
  unfold handleIncoming at h
  split at h
  · exact absurd h (by simp)
  · rename_i packetType body
    split at h
    · obtain ⟨a, b, c, d, e⟩ :=
        handleDataPacket_closed w KeepsSendSide (keepsSendSide_closed w) s s' _ h
      exact ⟨b.trans hs, a, d, c, e⟩
    · split at h
      · rename_i hdata hstate
        unfold handleStatePacket at h
        split at h
        · exact absurd h (by simp)
        · rename_i state extra
          have hne : state ≠ w.STATE_FINISH_READ := by
            intro heq
            simp [isFinishReadPacket, hstate, heq] at hp
          unfold pushState at h
          simp only [hne, if_false] at h
          repeat' split at h
          all_goals
            simp only [Option.some.injEq] at h
            subst h
          all_goals first
            | exact ⟨hs, rfl, rfl, rfl, rfl⟩
            | exact ⟨rfl, rfl, rfl, rfl, rfl⟩
      · split at h
        · simp only [Option.some.injEq] at h
          subst h
          obtain ⟨a, b, c, d, e⟩ := handleInfoPacket_keeps now s body
          exact ⟨b.trans hs, a, d, c, e⟩
        · simp only [Option.some.injEq] at h
          subst h
          exact ⟨hs, rfl, rfl, rfl, rfl⟩

theorem handleAll_keeps_abort (w : Consts) (rest : List (Nat × List Nat)) :
    ∀ s s' : Session, (∀ p ∈ rest, isFinishReadPacket w p.2 = false) →
      s.remoteReadState = ABORT → handleAll w s rest = some s' →
      s'.remoteReadState = ABORT ∧ s'.sendQueue = s.sendQueue := by
  induction rest with
  | nil =>
    intro s s' _ hs h
    simp only [handleAll, Option.some.injEq] at h
    subst h
    exact ⟨hs, rfl⟩
  | cons x rest ih =>
    intro s s' hp hs h
    obtain ⟨now, packet⟩ := x
    simp only [handleAll] at h
    split at h
    · exact absurd h (by simp)
    · rename_i s1 h1
      obtain ⟨a, _, c, _, _⟩ := handleIncoming_keeps_abort w now s s1 packet
        (hp (now, packet) (List.mem_cons_self _ _)) hs h1
      obtain ⟨a', c'⟩ := ih s1 s' (fun p hpm => hp p (List.mem_cons_of_mem _ hpm)) a h
      exact ⟨a', c'.trans c⟩

theorem Send_abort (w : Consts) (s : Session) (data : List Nat)
    (h : s.remoteReadState = ABORT) : Send w s data = (s, ABORT) := by
  unfold Send
  split
  · rfl
  · simp [h]

/-- Claim C6 fails as stated: on a fresh session, after `STATE_ABORT_READ` has
been handled, a later `STATE_FINISH_READ` packet sets `remoteReadState` back
to `FINISH`, and the next `Send` returns `NORMAL` and enqueues its packet. -/
theorem send_admitted_after_abort_read :
    ∃ s', handleAll sampleConsts (newSession 0)
        [(0, stateFrame sampleConsts sampleConsts.STATE_ABORT_READ []),
         (1, stateFrame sampleConsts sampleConsts.STATE_FINISH_READ (putU32 0))] = some s' ∧
      (Send sampleConsts s' [120]).2 = NORMAL ∧
      (Send sampleConsts s' [120]).1.sendQueue =
        s'.sendQueue ++ [ToSend.mk Tag.DATA [1, 0, 0, 0, 1, 120]] :=
  ⟨_, rfl, by decide, by decide⟩

/-- Claim C6, amended: once the session has handled an inbound
`STATE_ABORT_READ` packet, then after any sequence of inbound packets handled
afterwards that contains no `STATE_FINISH_READ` packet, `Send` returns `ABORT`
and leaves the session, in particular the send queue, as it was. -/
theorem send_rejected_after_abort_read (w : Consts) (s s1 s2 : Session) (now : Nat)
    (extra : List Nat) (later : List (Nat × List Nat)) (data : List Nat)
    (habort : handleIncoming w now s (stateFrame w w.STATE_ABORT_READ extra) = some s1)
    (hlater : ∀ p ∈ later, isFinishReadPacket w p.2 = false)
    (hrun : handleAll w s1 later = some s2) :
    Send w s2 data = (s2, ABORT) ∧ (Send w s2 data).1.sendQueue = s2.sendQueue := by
  rw [handleIncoming_stateFrame, handleStatePacket_abortRead] at habort
  simp only [Option.some.injEq] at habort
  have hs1 : s1.remoteReadState = ABORT := by rw [← habort]; rfl
  obtain ⟨h2, _⟩ := handleAll_keeps_abort w later s1 s2 hlater hs1 hrun
  rw [Send_abort w s2 data h2]
  exact ⟨rfl, rfl⟩

theorem send_rejected_after_abort_read_witness :
    Send sampleConsts
      { newSession 0 with
          remoteReadState := ABORT, sendState := ABORT, remoteSendState := FINISH,
          remoteSendFinishAt := 7, incomingSerial := 2, maxIncomingSerial := 1,
          incomingDataCount := 1, BytesRead := 1,
          message := [stateMessage 3, dataMessage ⟨1, [120]⟩] } [121] =
      ({ newSession 0 with
          remoteReadState := ABORT, sendState := ABORT, remoteSendState := FINISH,
          remoteSendFinishAt := 7, incomingSerial := 2, maxIncomingSerial := 1,
          incomingDataCount := 1, BytesRead := 1,
          message := [stateMessage 3, dataMessage ⟨1, [120]⟩] }, ABORT) :=
  (send_rejected_after_abort_read sampleConsts (newSession 0) _ _ 0 []
    [(1, dataFrame sampleConsts ⟨1, [120]⟩),
     (2, stateFrame sampleConsts sampleConsts.STATE_FINISH_SEND (putU32 7))] [121]
    rfl (by decide) rfl).1

theorem take_putU32_append (v : Nat) (d : List Nat) : (putU32 v ++ d).take 4 = putU32 v := by
  simp [putU32]

theorem drop_putU32_append (v : Nat) (d : List Nat) : (putU32 v ++ d).drop 4 = d := by
  simp [putU32]

theorem handleDataPacket_frame (w : Consts) (s : Session) (k : Nat) (d : List Nat)
    (h : k < 2 ^ 32) :
    handleDataPacket w s (putU32 k ++ d) =
      some (drain w (noteMaxSerial
        (admitPacket w { s with incomingDataCount := (s.incomingDataCount + 1) % 2 ^ 32 } ⟨k, d⟩)
        k)) := by
  unfold handleDataPacket
  have hl : ¬ (putU32 k ++ d).length < 4 := by
    simp [putU32]
  simp only [hl, if_false, take_putU32_append, drop_putU32_append, beValue_putU32 _ h]

/-- Claim C8 fails as stated, in both directions: `FinishSend` on a fresh
session changes `sendState` and produces no `STATE` message; a second inbound
`STATE_ABORT_SEND` packet produces a `STATE` message and changes neither
`sendState` nor `readState`. -/
theorem state_message_count_differs :
    (stateMessageCount (FinishSend sampleConsts (newSession 0)).message
        - stateMessageCount (newSession 0).message = 0 ∧
      halfStateChanges (newSession 0) (FinishSend sampleConsts (newSession 0)) = 1) ∧
    (∃ s1 s2,
      handleIncoming sampleConsts 0 (newSession 0)
        (stateFrame sampleConsts sampleConsts.STATE_ABORT_SEND []) = some s1 ∧
      handleIncoming sampleConsts 1 s1
        (stateFrame sampleConsts sampleConsts.STATE_ABORT_SEND []) = some s2 ∧
      stateMessageCount s2.message - stateMessageCount s1.message = 1 ∧
      halfStateChanges s1 s2 = 0) :=
  ⟨⟨by decide, by decide⟩, _, _, rfl, rfl, by decide, by decide⟩

/-- Claim C8, amended: the local calls `FinishSend`, `FinishRead`, `AbortSend`,
`AbortRead` set their half-state and produce no message for the consumer;
`handleIncoming`, on any packet and from any state, only appends messages, and
the number of `STATE` messages it appends is at least the number of the two
fields `sendState`, `readState` whose value it changes. -/
theorem state_messages_cover_changes (w : Consts) (now : Nat) (s : Session) (packet : List Nat) :
    ((FinishSend w s).sendState = FINISH ∧ (FinishSend w s).message = s.message) ∧
    ((FinishRead w s).readState = FINISH ∧ (FinishRead w s).message = s.message) ∧
    ((AbortSend w s).sendState = ABORT ∧ (AbortSend w s).message = s.message) ∧
    ((AbortRead w s).readState = ABORT ∧ (AbortRead w s).message = s.message) ∧
    (match handleIncoming w now s packet with
      | none => True
      | some s' => ∃ new, s'.message = s.message ++ new ∧
          halfStateChanges s s' ≤ stateMessageCount new) := by
  refine ⟨⟨rfl, rfl⟩, ⟨rfl, rfl⟩, ⟨rfl, rfl⟩, ⟨rfl, rfl⟩, ?_⟩
  cases h : handleIncoming w now s packet with
  | none => trivial
  | some s' => exact handleIncoming_stateStep w now s s' packet h

/-- Claim C7 (what the code does at the failing input): on a fresh session
that handles `STATE_FINISH_SEND(at = 2)` and then the `DATA` packets of serials
1 and 2, `readState` becomes `FINISH`, but the only `STATE` message produced
carries the code `STATE_ABORT_SEND`: no `STATE_FINISH_SEND` message is
produced. -/
theorem finish_send_before_data_reports_abort (w : Consts) :
    handleAll w (newSession 0)
        [(0, stateFrame w w.STATE_FINISH_SEND (putU32 2)),
         (1, dataFrame w ⟨1, [97]⟩), (2, dataFrame w ⟨2, [98]⟩)] =
      some { newSession 0 with
        remoteSendState := FINISH, remoteSendFinishAt := 2, readState := FINISH,
        incomingSerial := 3, maxIncomingSerial := 2, incomingDataCount := 2, BytesRead := 2,
        message := [dataMessage ⟨1, [97]⟩, dataMessage ⟨2, [98]⟩,
          stateMessage w.STATE_ABORT_SEND] } ∧
    stateMessage w.STATE_FINISH_SEND ∉
      [dataMessage ⟨1, [97]⟩, dataMessage ⟨2, [98]⟩, stateMessage w.STATE_ABORT_SEND] := by
  constructor
  · simp [handleAll, handleIncoming_stateFrame, handleStatePacket_finishSend,
      handleIncoming_dataFrame, handleDataPacket_frame, readFinishAt_putU32, admitPacket,
      noteMaxSerial, drain, drainLoop, heapPop, heapPush, pushData, pushState, newSession,
      dataMessage, stateMessage]
  · have h := w.states_ne
    simp [stateMessage, dataMessage, h.2.1]

/-- Claim C3 (what the code does at the failing input): the arrivals of
serials `2, 2, 1, 4, 3` deliver serials 1, 2, 3 only, the second copy of
serial 2 stays at the head of the reorder queue and serial 4 behind it; the
same arrivals without the repeated packet deliver serials 1, 2, 3, 4. -/
theorem duplicate_in_queue_blocks_delivery (w : Consts) :
    handleAll w (newSession 0)
        [(0, dataFrame w ⟨2, [98]⟩), (0, dataFrame w ⟨2, [98]⟩), (0, dataFrame w ⟨1, [97]⟩),
         (0, dataFrame w ⟨4, [100]⟩), (0, dataFrame w ⟨3, [99]⟩)] =
      some { newSession 0 with
        incomingSerial := 4, maxIncomingSerial := 4, incomingDataCount := 5, BytesRead := 3,
        packetQueue := [⟨2, [98]⟩, ⟨4, [100]⟩],
        message := [dataMessage ⟨1, [97]⟩, dataMessage ⟨2, [98]⟩, dataMessage ⟨3, [99]⟩] } ∧
    handleAll w (newSession 0)
        [(0, dataFrame w ⟨2, [98]⟩), (0, dataFrame w ⟨1, [97]⟩),
         (0, dataFrame w ⟨4, [100]⟩), (0, dataFrame w ⟨3, [99]⟩)] =
      some { newSession 0 with
        incomingSerial := 5, maxIncomingSerial := 4, incomingDataCount := 4, BytesRead := 4,
        packetQueue := [],
        message := [dataMessage ⟨1, [97]⟩, dataMessage ⟨2, [98]⟩, dataMessage ⟨3, [99]⟩,
          dataMessage ⟨4, [100]⟩] } := by
  constructor <;>
    simp [handleAll, handleIncoming_dataFrame, handleDataPacket_frame, admitPacket,
      noteMaxSerial, drain, drainLoop, heapPop, heapPush, pushData, pushState, newSession,
      dataMessage]

theorem heapPush_perm (q : List Packet) (p : Packet) : (heapPush q p).Perm (p :: q) := by
  induction q with
  | nil => exact List.Perm.refl _
  | cons x rest ih =>
    unfold heapPush
    split
    · exact List.Perm.refl _
    · exact (List.Perm.cons x ih).trans (List.Perm.swap p x rest)

theorem heapPush_length (q : List Packet) (p : Packet) :
    (heapPush q p).length = q.length + 1 := by
  simpa using (heapPush_perm q p).length_eq

theorem heapPush_sorted (q : List Packet) (p : Packet)
    (hq : q.Pairwise (fun a b => a.serial < b.serial)) (hp : ∀ x ∈ q, x.serial ≠ p.serial) :
    (heapPush q p).Pairwise (fun a b => a.serial < b.serial) := by
  induction q with
  | nil => simp [heapPush]
  | cons x rest ih =>
    have hx := hp x (List.mem_cons_self _ _)
    rw [List.pairwise_cons] at hq
    unfold heapPush
    split
    · rename_i hle
      have hlt : p.serial < x.serial := by omega
      refine List.pairwise_cons.mpr ⟨?_, List.pairwise_cons.mpr hq⟩
      intro y hy
      rcases List.mem_cons.mp hy with rfl | hy
      · exact hlt
      · exact lt_trans hlt (hq.1 y hy)
    · rename_i hle
      refine List.pairwise_cons.mpr ⟨?_, ih hq.2 (fun y hy => hp y (List.mem_cons_of_mem _ hy))⟩
      intro y hy
      rcases List.mem_cons.mp ((heapPush_perm rest p).subset hy) with rfl | hy
      · omega
      · exact hq.1 y hy

theorem requeue_perm (rest : List Packet) : (requeue rest).Perm rest := by
  cases rest with
  | nil => exact List.Perm.refl _
  | cons hd tl => exact heapPush_perm tl hd

theorem requeue_sorted (rest : List Packet)
    (h : rest.Pairwise (fun a b => a.serial < b.serial)) : requeue rest = rest := by
  cases rest with
  | nil => rfl
  | cons hd tl =>
    cases tl with
    | nil => rfl
    | cons x tl' =>
      have hlt : hd.serial < x.serial := (List.pairwise_cons.mp h).1 x (List.mem_cons_self _ _)
      simp [requeue, heapPush, Nat.le_of_lt hlt]

theorem pushData_quiet (w : Consts) (s : Session) (p : Packet) (h : Quiet s) :
    pushData w s p =
      { s with message := s.message ++ [dataMessage p]
               BytesRead := (s.BytesRead + p.data.length) % 2 ^ 64 } := by
  obtain ⟨h1, h2⟩ := h
  simp [pushData, h1, h2, dataMessage]

theorem drainLoop_quiet (w : Consts) :
    ∀ (fuel : Nat) (s : Session), Quiet s → s.packetQueue.length ≤ fuel →
      s.incomingSerial + s.packetQueue.length < 2 ^ 32 →
      ∃ taken rest, Drained s (drainLoop w fuel s) taken rest := by
  intro fuel
  induction fuel with
  | zero =>
    intro s hs hlen _
    have hq : s.packetQueue = [] := List.length_eq_zero.mp (Nat.le_zero.mp hlen)
    exact ⟨[], [], by simp [hq], by simp, by simp, by simp [drainLoop], by simp [drainLoop],
      by simp [drainLoop, hq, requeue], hs⟩
  | succ n ih =>
    intro s hs hlen hbound
    cases hq : s.packetQueue with
    | nil =>
      refine ⟨[], [], by simp [hq], by simp, by simp, ?_, ?_, ?_, ?_⟩ <;>
        simp [drainLoop, heapPop, hq, requeue, hs]
    | cons next rest0 =>
      rw [hq] at hlen hbound
      simp only [List.length_cons] at hlen hbound
      by_cases hnext : next.serial = s.incomingSerial
      · have hq1 : Quiet { s with packetQueue := rest0 } := hs
        have hstep : drainLoop w (n + 1) s =
            drainLoop w n
              { s with packetQueue := rest0
                       message := s.message ++ [dataMessage next]
                       BytesRead := (s.BytesRead + next.data.length) % 2 ^ 64
                       incomingSerial := s.incomingSerial + 1 } := by
          rw [drainLoop]
          simp only [heapPop, hq, hnext, if_true, pushData_quiet w _ next hq1]
          rw [Nat.mod_eq_of_lt (by omega)]
        obtain ⟨taken, rest, hd⟩ := ih
          { s with packetQueue := rest0
                   message := s.message ++ [dataMessage next]
                   BytesRead := (s.BytesRead + next.data.length) % 2 ^ 64
                   incomingSerial := s.incomingSerial + 1 } hs
          (show rest0.length ≤ n by omega)
          (show s.incomingSerial + 1 + rest0.length < 2 ^ 32 by omega)
        rw [← hstep] at hd
        refine ⟨next :: taken, rest, ?_, ?_, ?_, ?_, ?_, ?_, ?_⟩
        · have := hd.split
          simp only at this
          rw [hq, this, List.cons_append]
        · have := hd.serials
          simp only at this
          simp only [List.map_cons, List.length_cons, List.range'_succ, hnext]
          rw [this]
        · intro x hx
          have := hd.stop x hx
          simp only at this
          simp only [List.length_cons]
          omega
        · rw [hd.message]; simp
        · rw [hd.incoming]; simp only [List.length_cons]; omega
        · rw [hd.queue]
        · exact hd.quiet
      · refine ⟨[], next :: rest0, by simp [hq], by simp, ?_, ?_, ?_, ?_, ?_⟩
        · intro x hx
          simp only [List.head?_cons, Option.mem_def, Option.some.injEq] at hx
          subst hx
          simpa using hnext
        all_goals
          rw [drainLoop]
          simp only [heapPop, hq, hnext, if_false]
        · simp
        · simp
        · simp [requeue]
        · exact hs

theorem range'_one_extend (inc k : Nat) (h : 1 ≤ inc) :
    List.range' 1 (inc - 1) ++ List.range' inc k = List.range' 1 (inc + k - 1) := by
  have h1 : List.range' inc k = List.range' (1 + (inc - 1)) k := by
    congr 1; omega
  rw [h1, List.range'_append_1]
  congr 1; omega

theorem delivered_length (s : Session) (ds : List Packet) (h : Delivered s ds) :
    ds.length = s.incomingSerial - 1 := by
  have := congrArg List.length h.2.1
  simpa using this

theorem drained_delivered (s s' : Session) (ds taken rest : List Packet)
    (hd : Drained s s' taken rest) (h : Delivered s ds) : Delivered s' (ds ++ taken) := by
  obtain ⟨hm, hser, h1⟩ := h
  refine ⟨?_, ?_, ?_⟩
  · rw [hd.message, hm, List.map_append]
  · rw [List.map_append, hser, hd.serials, hd.incoming, range'_one_extend _ _ h1]
  · rw [hd.incoming]; omega

theorem drained_perm (s s' : Session) (ds taken rest : List Packet)
    (hd : Drained s s' taken rest) :
    (ds ++ taken ++ s'.packetQueue).Perm (ds ++ s.packetQueue) := by
  rw [hd.queue, hd.split, List.append_assoc]
  exact List.Perm.append_left ds (List.Perm.append_left taken (requeue_perm rest))

theorem drain_core (w : Consts) (B : List Packet) (t : Session) (h : Core B t)
    (hB : B.length < 2 ^ 32 - 1) : Core B (drain w t) := by
  obtain ⟨hq, ds, hdel, hsub⟩ := h
  have hlen := delivered_length t ds hdel
  have hle := hsub.length_le
  rw [List.length_append] at hle
  have h1 := hdel.2.2
  obtain ⟨taken, rest, hd⟩ := drainLoop_quiet w t.packetQueue.length t hq (Nat.le_refl _)
    (by omega)
  refine ⟨hd.quiet, ds ++ taken, drained_delivered _ _ _ _ _ hd hdel, ?_⟩
  exact (drained_perm t _ ds taken rest hd).subperm.trans hsub

theorem admit_core (w : Consts) (A : List Packet) (s : Session) (p : Packet) (h : Core A s)
    (hA : A.length + 1 < 2 ^ 32 - 1) : Core (A ++ [p]) (admitPacket w s p) := by
  obtain ⟨hq, ds, hdel, hsub⟩ := h
  have hlen := delivered_length s ds hdel
  have hle := hsub.length_le
  rw [List.length_append] at hle
  obtain ⟨hm, hser, h1⟩ := hdel
  unfold admitPacket
  split
  · rename_i heq
    rw [pushData_quiet w s p hq]
    refine ⟨hq, ds ++ [p], ⟨?_, ?_, ?_⟩, ?_⟩
    · simp [hm]
    · simp only [List.map_append, List.map_cons, List.map_nil, hser, heq]
      rw [Nat.mod_eq_of_lt (by omega)]
      have : List.range' 1 (s.incomingSerial - 1 + 1) 1 =
          List.range' 1 (s.incomingSerial - 1) 1 ++ [1 + 1 * (s.incomingSerial - 1)] :=
        List.range'_concat 1 (s.incomingSerial - 1)
      rw [show s.incomingSerial + 1 - 1 = s.incomingSerial - 1 + 1 by omega, this]
      congr 2; omega
    · show 1 ≤ (s.incomingSerial + 1) % 2 ^ 32
      rw [Nat.mod_eq_of_lt (by omega)]; omega
    · show (ds ++ [p] ++ s.packetQueue).Subperm (A ++ [p])
      have hp : (ds ++ [p] ++ s.packetQueue).Perm (ds ++ s.packetQueue ++ [p]) := by
        rw [List.append_assoc, List.append_assoc]
        exact List.Perm.append_left ds List.perm_append_comm
      exact hp.subperm.trans ((List.subperm_append_right [p]).mpr hsub)
  · split
    · refine ⟨hq, ds, ⟨hm, hser, h1⟩, ?_⟩
      show (ds ++ heapPush s.packetQueue p).Subperm (A ++ [p])
      have hp : (ds ++ heapPush s.packetQueue p).Perm (ds ++ s.packetQueue ++ [p]) := by
        rw [List.append_assoc]
        exact List.Perm.append_left ds
          ((heapPush_perm s.packetQueue p).trans
            (List.perm_append_comm : ([p] ++ s.packetQueue).Perm (s.packetQueue ++ [p])))
      exact hp.subperm.trans ((List.subperm_append_right [p]).mpr hsub)
    · refine ⟨hq, ds, ⟨hm, hser, h1⟩, ?_⟩
      exact hsub.trans (List.sublist_append_left A [p]).subperm

theorem noteMaxSerial_core (A : List Packet) (s : Session) (n : Nat) (h : Core A s) :
    Core A (noteMaxSerial s n) := by
  unfold noteMaxSerial
  split
  · exact h
  · exact h

theorem handleIncoming_core (w : Consts) (now : Nat) (A : List Packet) (s : Session)
    (p : Packet) (h : Core A s) (hA : A.length + 1 < 2 ^ 32 - 1) (hp : p.serial < 2 ^ 32) :
    ∃ s', handleIncoming w now s (dataFrame w p) = some s' ∧ Core (A ++ [p]) s' := by
  rw [handleIncoming_dataFrame, handleDataPacket_frame w s p.serial p.data hp]
  refine ⟨_, rfl, ?_⟩
  apply drain_core w _ _ _ (by simpa using hA)
  apply noteMaxSerial_core
  exact admit_core w A _ p h hA

theorem handleAll_core (w : Consts) (arrivals : List (Nat × Packet)) :
    ∀ (A : List Packet) (s : Session), Core A s →
      A.length + arrivals.length < 2 ^ 32 - 1 → (∀ a ∈ arrivals, a.2.serial < 2 ^ 32) →
      ∃ s', handleAll w s (arrivals.map (fun a => (a.1, dataFrame w a.2))) = some s' ∧
        Core (A ++ arrivals.map (fun a => a.2)) s' := by
  induction arrivals with
  | nil =>
    intro A s h _ _
    exact ⟨s, rfl, by simpa using h⟩
  | cons a rest ih =>
    intro A s h hlen hser
    simp only [List.length_cons] at hlen
    obtain ⟨s1, h1, hc1⟩ := handleIncoming_core w a.1 A s a.2 h (by omega)
      (hser a (List.mem_cons_self _ _))
    obtain ⟨s', h2, hc2⟩ := ih (A ++ [a.2]) s1 hc1 (by simp; omega)
      (fun b hb => hser b (List.mem_cons_of_mem _ hb))
    refine ⟨s', ?_, by simpa using hc2⟩
    simp only [List.map_cons, handleAll, h1]
    exact h2

theorem newSession_core (id : Nat) : Core [] (newSession id) := by
  refine ⟨⟨by simp [newSession], by simp [newSession]⟩, [], ⟨rfl, rfl, ?_⟩, ?_⟩
  · simp [newSession]
  · simp [newSession]

/-- Claim C2: from a fresh session, after any sequence of fewer than
`2 ^ 32 - 1` well-formed inbound `DATA` packets with arbitrary serials, every
packet is handled without failure and the messages produced are the `DATA`
messages of packets `ds` taken from distinct arrivals whose serials are
`1, 2, ..., incomingSerial - 1` in that order: in serial order from 1, no gap,
no serial twice. -/
theorem delivered_in_serial_order (w : Consts) (id : Nat) (arrivals : List (Nat × Packet))
    (hlen : arrivals.length < 2 ^ 32 - 1) (hser : ∀ a ∈ arrivals, a.2.serial < 2 ^ 32) :
    ∃ (s' : Session) (ds : List Packet),
      handleAll w (newSession id) (arrivals.map (fun a => (a.1, dataFrame w a.2))) = some s' ∧
      s'.message = ds.map dataMessage ∧
      ds.map (fun p => p.serial) = List.range' 1 (s'.incomingSerial - 1) ∧
      1 ≤ s'.incomingSerial ∧
      ds.Subperm (arrivals.map (fun a => a.2)) := by
  obtain ⟨s', hrun, _, ds, ⟨hm, hs, h1⟩, hsub⟩ :=
    handleAll_core w arrivals [] (newSession id) (newSession_core id) (by simpa using hlen) hser
  refine ⟨s', ds, hrun, hm, hs, h1, ?_⟩
  rw [List.nil_append] at hsub
  exact (List.sublist_append_left ds s'.packetQueue).subperm.trans hsub

theorem drain_exact (w : Consts) (B : List Packet) (t : Session) (h : Exact 0 B t)
    (hB : B.length < 2 ^ 32 - 1) : Exact 1 B (drain w t) := by
  obtain ⟨hq, ds, hdel, hperm, hsorted, hge⟩ := h
  have hlen := delivered_length t ds hdel
  have hle := hperm.length_eq
  rw [List.length_append] at hle
  have h1 := hdel.2.2
  obtain ⟨taken, rest, hd⟩ := drainLoop_quiet w t.packetQueue.length t hq (Nat.le_refl _)
    (by omega)
  rw [hd.split] at hsorted hge
  obtain ⟨_, hrest, hcross⟩ := List.pairwise_append.mp hsorted
  have hqueue : (drain w t).packetQueue = rest := by
    show (drainLoop w t.packetQueue.length t).packetQueue = rest
    rw [hd.queue, requeue_sorted rest hrest]
  have hlow : ∀ r ∈ rest, t.incomingSerial + taken.length ≤ r.serial := by
    intro r hr
    by_cases hk : taken.length = 0
    · have := hge r (List.mem_append_right _ hr)
      omega
    · have hmem : t.incomingSerial + taken.length - 1 ∈ taken.map (fun p => p.serial) := by
        rw [hd.serials, List.mem_range'_1]
        omega
      obtain ⟨x, hx, hxs⟩ := List.mem_map.mp hmem
      have := hcross x hx r hr
      omega
  refine ⟨hd.quiet, ds ++ taken, drained_delivered _ _ _ _ _ hd hdel, ?_, ?_, ?_⟩
  · exact (drained_perm t _ ds taken rest hd).trans hperm
  · rw [hqueue]; exact hrest
  · rw [hqueue]
    show ∀ p ∈ rest, (drainLoop w t.packetQueue.length t).incomingSerial + 1 ≤ p.serial
    rw [hd.incoming]
    intro r hr
    cases hrest' : rest with
    | nil => rw [hrest'] at hr; exact absurd hr (List.not_mem_nil _)
    | cons hd0 tl =>
      have hstop := hd.stop hd0 (by rw [hrest']; rfl)
      have hhd := hlow hd0 (by rw [hrest']; exact List.mem_cons_self _ _)
      rw [hrest'] at hr hrest
      rcases List.mem_cons.mp hr with rfl | hr
      · omega
      · have := (List.pairwise_cons.mp hrest).1 r hr
        omega

theorem admit_exact (w : Consts) (A : List Packet) (s : Session) (p : Packet)
    (h : Exact 1 A s) (hnew : p.serial ∉ A.map (fun x => x.serial)) (hpos : 1 ≤ p.serial)
    (hA : A.length + 1 < 2 ^ 32 - 1) : Exact 0 (A ++ [p]) (admitPacket w s p) := by
  obtain ⟨hq, ds, hdel, hperm, hsorted, hgt⟩ := h
  have hlen := delivered_length s ds hdel
  have hle := hperm.length_eq
  rw [List.length_append] at hle
  obtain ⟨hm, hser, h1⟩ := hdel
  have hinA : ∀ x ∈ ds ++ s.packetQueue, x.serial ≠ p.serial := by
    intro x hx heq
    exact hnew (List.mem_map.mpr ⟨x, hperm.subset hx, heq⟩)
  have hge : s.incomingSerial ≤ p.serial := by
    by_contra hlt
    have hmem : p.serial ∈ ds.map (fun x => x.serial) := by
      rw [hser, List.mem_range'_1]; omega
    obtain ⟨x, hx, hxs⟩ := List.mem_map.mp hmem
    exact hinA x (List.mem_append_left _ hx) hxs
  unfold admitPacket
  split
  · rename_i heq
    rw [pushData_quiet w s p hq]
    refine ⟨hq, ds ++ [p], ⟨?_, ?_, ?_⟩, ?_, hsorted, ?_⟩
    · simp [hm]
    · simp only [List.map_append, List.map_cons, List.map_nil, hser, heq]
      rw [Nat.mod_eq_of_lt (by omega)]
      have : List.range' 1 (s.incomingSerial - 1 + 1) 1 =
          List.range' 1 (s.incomingSerial - 1) 1 ++ [1 + 1 * (s.incomingSerial - 1)] :=
        List.range'_concat 1 (s.incomingSerial - 1)
      rw [show s.incomingSerial + 1 - 1 = s.incomingSerial - 1 + 1 by omega, this]
      congr 2; omega
    · show 1 ≤ (s.incomingSerial + 1) % 2 ^ 32
      rw [Nat.mod_eq_of_lt (by omega)]; omega
    · show (ds ++ [p] ++ s.packetQueue).Perm (A ++ [p])
      have hp : (ds ++ [p] ++ s.packetQueue).Perm (ds ++ s.packetQueue ++ [p]) := by
        rw [List.append_assoc, List.append_assoc]
        exact List.Perm.append_left ds List.perm_append_comm
      exact hp.trans (List.Perm.append_right [p] hperm)
    · show ∀ x ∈ s.packetQueue, (s.incomingSerial + 1) % 2 ^ 32 + 0 ≤ x.serial
      rw [Nat.mod_eq_of_lt (by omega)]
      intro x hx
      have := hgt x hx
      omega
  · split
    · refine ⟨hq, ds, ⟨hm, hser, h1⟩, ?_, ?_, ?_⟩
      · show (ds ++ heapPush s.packetQueue p).Perm (A ++ [p])
        have hp : (ds ++ heapPush s.packetQueue p).Perm (ds ++ s.packetQueue ++ [p]) := by
          rw [List.append_assoc]
          exact List.Perm.append_left ds
            ((heapPush_perm s.packetQueue p).trans
            (List.perm_append_comm : ([p] ++ s.packetQueue).Perm (s.packetQueue ++ [p])))
        exact hp.trans (List.Perm.append_right [p] hperm)
      · exact heapPush_sorted _ _ hsorted (fun x hx => hinA x (List.mem_append_right _ hx))
      · show ∀ x ∈ heapPush s.packetQueue p, s.incomingSerial + 0 ≤ x.serial
        intro x hx
        rcases List.mem_cons.mp ((heapPush_perm _ _).subset hx) with rfl | hx
        · omega
        · have := hgt x hx
          omega
    · rename_i hne hngt
      omega

theorem noteMaxSerial_exact (gap : Nat) (A : List Packet) (s : Session) (n : Nat)
    (h : Exact gap A s) : Exact gap A (noteMaxSerial s n) := by
  unfold noteMaxSerial
  split
  · exact h
  · exact h

theorem handleIncoming_exact (w : Consts) (now : Nat) (A : List Packet) (s : Session)
    (p : Packet) (h : Exact 1 A s) (hnew : p.serial ∉ A.map (fun x => x.serial))
    (hpos : 1 ≤ p.serial) (hA : A.length + 1 < 2 ^ 32 - 1) (hp : p.serial < 2 ^ 32) :
    ∃ s', handleIncoming w now s (dataFrame w p) = some s' ∧ Exact 1 (A ++ [p]) s' := by
  rw [handleIncoming_dataFrame, handleDataPacket_frame w s p.serial p.data hp]
  refine ⟨_, rfl, ?_⟩
  apply drain_exact w _ _ _ (by simpa using hA)
  apply noteMaxSerial_exact
  exact admit_exact w A _ p h hnew hpos hA

theorem handleAll_exact (w : Consts) (arrivals : List (Nat × Packet)) :
    ∀ (A : List Packet) (s : Session), Exact 1 A s →
      A.length + arrivals.length < 2 ^ 32 - 1 →
      (∀ a ∈ arrivals, 1 ≤ a.2.serial ∧ a.2.serial < 2 ^ 32) →
      ((A ++ arrivals.map (fun a => a.2)).map (fun x => x.serial)).Nodup →
      ∃ s', handleAll w s (arrivals.map (fun a => (a.1, dataFrame w a.2))) = some s' ∧
        Exact 1 (A ++ arrivals.map (fun a => a.2)) s' := by
  induction arrivals with
  | nil =>
    intro A s h _ _ _
    exact ⟨s, rfl, by simpa using h⟩
  | cons a rest ih =>
    intro A s h hlen hser hnd
    simp only [List.length_cons] at hlen
    have hnd' : ((A ++ [a.2] ++ rest.map (fun a => a.2)).map (fun x => x.serial)).Nodup := by
      simpa using hnd
    have hnew : a.2.serial ∉ A.map (fun x => x.serial) := by
      intro hmem
      simp only [List.map_append, List.map_cons, List.map_nil, List.append_assoc] at hnd'
      have := (List.nodup_append.mp hnd').2.2
      exact this hmem (by simp)
    obtain ⟨hpos, hlt⟩ := hser a (List.mem_cons_self _ _)
    obtain ⟨s1, h1, hc1⟩ := handleIncoming_exact w a.1 A s a.2 h hnew hpos (by omega) hlt
    obtain ⟨s', h2, hc2⟩ := ih (A ++ [a.2]) s1 hc1 (by simp; omega)
      (fun b hb => hser b (List.mem_cons_of_mem _ hb)) hnd'
    refine ⟨s', ?_, by simpa using hc2⟩
    simp only [List.map_cons, handleAll, h1]
    exact h2

theorem newSession_exact (id : Nat) : Exact 1 [] (newSession id) := by
  refine ⟨⟨by simp [newSession], by simp [newSession]⟩, [], ⟨rfl, rfl, ?_⟩, ?_, ?_, ?_⟩ <;>
    simp [newSession]

/-- Claim C1: for `N < 2 ^ 32 - 1` and any arrival order of `DATA` packets whose
serials are a permutation of `1..N`, handling them one by one from a fresh
session produces exactly `N` messages, the `DATA` messages of the arrived
packets in the order of serials `1, 2, ..., N`, each once, and leaves
`incomingSerial = N + 1` and the reorder queue empty. -/
theorem permutation_delivered_in_order (w : Consts) (id N : Nat) (hN : N < 2 ^ 32 - 1)
    (arrivals : List (Nat × Packet))
    (hperm : (arrivals.map (fun a => a.2.serial)).Perm (List.range' 1 N)) :
    ∃ (s' : Session) (ds : List Packet),
      handleAll w (newSession id) (arrivals.map (fun a => (a.1, dataFrame w a.2))) = some s' ∧
      s'.message = ds.map dataMessage ∧
      ds.Perm (arrivals.map (fun a => a.2)) ∧
      ds.map (fun p => p.serial) = List.range' 1 N ∧
      s'.message.length = N ∧
      s'.incomingSerial = N + 1 ∧
      s'.packetQueue = [] := by
  have hmap : (arrivals.map (fun a => a.2)).map (fun p => p.serial) =
      arrivals.map (fun a => a.2.serial) := by
    rw [List.map_map]; rfl
  have hlen : arrivals.length = N := by
    have := hperm.length_eq
    simpa using this
  have hbounds : ∀ a ∈ arrivals, 1 ≤ a.2.serial ∧ a.2.serial < 2 ^ 32 := by
    intro a ha
    have hmem : a.2.serial ∈ List.range' 1 N :=
      hperm.subset (List.mem_map.mpr ⟨a, ha, rfl⟩)
    rw [List.mem_range'_1] at hmem
    omega
  have hnodup : ((([] : List Packet) ++ arrivals.map (fun a => a.2)).map
      (fun x => x.serial)).Nodup := by
    rw [List.nil_append, hmap]
    exact hperm.nodup_iff.mpr (List.nodup_range' 1 N)
  obtain ⟨s', hrun, _, ds, hdel, hp, _, hgap⟩ :=
    handleAll_exact w arrivals [] (newSession id) (newSession_exact id)
      (by simp only [List.length_nil]; omega) hbounds hnodup
  rw [List.nil_append] at hp
  have hdlen := delivered_length s' ds hdel
  obtain ⟨hm, hser, h1⟩ := hdel
  have hserials : ((ds ++ s'.packetQueue).map (fun p => p.serial)).Perm (List.range' 1 N) :=
    ((hp.map _).trans (by rw [hmap])).trans hperm
  have hempty : s'.packetQueue = [] := by
    cases hq : s'.packetQueue with
    | nil => rfl
    | cons q tl =>
      exfalso
      have hqmem : q ∈ s'.packetQueue := by rw [hq]; exact List.mem_cons_self _ _
      have hqgap := hgap q hqmem
      have hqr : q.serial ∈ List.range' 1 N :=
        hserials.subset (List.mem_map.mpr ⟨q, List.mem_append_right _ hqmem, rfl⟩)
      rw [List.mem_range'_1] at hqr
      have hinc : s'.incomingSerial ∈ List.range' 1 N := by
        rw [List.mem_range'_1]; omega
      obtain ⟨x, hx, hxs⟩ := List.mem_map.mp (hserials.symm.subset hinc)
      rcases List.mem_append.mp hx with hx | hx
      · have : x.serial ∈ ds.map (fun p => p.serial) := List.mem_map.mpr ⟨x, hx, rfl⟩
        rw [hser, List.mem_range'_1] at this
        omega
      · have := hgap x hx
        omega
  rw [hempty, List.append_nil] at hp
  have hcount : s'.incomingSerial - 1 = N := by
    have := hp.length_eq
    rw [List.length_map] at this
    omega
  refine ⟨s', ds, hrun, hm, hp, ?_, ?_, ?_, hempty⟩
  · rw [hser, hcount]
  · rw [hm, List.length_map]; omega
  · omega

theorem permutation_delivered_in_order_witness :
    ∃ (s' : Session) (ds : List Packet),
      handleAll sampleConsts (newSession 0)
        ([(10, (⟨3, [99]⟩ : Packet)), (11, ⟨1, [97]⟩), (12, ⟨2, [98]⟩)].map
          (fun a => (a.1, dataFrame sampleConsts a.2))) = some s' ∧
      s'.message = ds.map dataMessage ∧
      ds.Perm ([(10, (⟨3, [99]⟩ : Packet)), (11, ⟨1, [97]⟩), (12, ⟨2, [98]⟩)].map (fun a => a.2)) ∧
      ds.map (fun p => p.serial) = List.range' 1 3 ∧
      s'.message.length = 3 ∧
      s'.incomingSerial = 3 + 1 ∧
      s'.packetQueue = [] :=
  permutation_delivered_in_order sampleConsts 0 3 (by decide)
    [(10, ⟨3, [99]⟩), (11, ⟨1, [97]⟩), (12, ⟨2, [98]⟩)] (by decide)

theorem delivered_in_serial_order_witness :
    ∃ (s' : Session) (ds : List Packet),
      handleAll sampleConsts (newSession 0)
        ([(10, (⟨2, [98]⟩ : Packet)), (11, ⟨2, [98]⟩), (12, ⟨1, [97]⟩), (13, ⟨0, [5]⟩),
          (14, ⟨7, [6]⟩)].map (fun a => (a.1, dataFrame sampleConsts a.2))) = some s' ∧
      s'.message = ds.map dataMessage ∧
      ds.map (fun p => p.serial) = List.range' 1 (s'.incomingSerial - 1) ∧
      1 ≤ s'.incomingSerial ∧
      ds.Subperm ([(10, (⟨2, [98]⟩ : Packet)), (11, ⟨2, [98]⟩), (12, ⟨1, [97]⟩), (13, ⟨0, [5]⟩),
          (14, ⟨7, [6]⟩)].map (fun a => a.2)) :=
  delivered_in_serial_order sampleConsts 0
    [(10, ⟨2, [98]⟩), (11, ⟨2, [98]⟩), (12, ⟨1, [97]⟩), (13, ⟨0, [5]⟩), (14, ⟨7, [6]⟩)]
    (by decide) (by decide)

theorem pushData_packetQueue (w : Consts) (s : Session) (p : Packet) :
    (pushData w s p).packetQueue = s.packetQueue := by
  unfold pushData pushState
  simp only
  split <;> split <;> rfl

theorem drainLoop_fuel (w : Consts) :
    ∀ (n m : Nat) (s : Session), s.packetQueue.length ≤ n → s.packetQueue.length ≤ m →
      drainLoop w n s = drainLoop w m s := by
  intro n
  induction n with
  | zero =>
    intro m s hn _
    have hq : s.packetQueue = [] := List.length_eq_zero.mp (Nat.le_zero.mp hn)
    cases m with
    | zero => rfl
    | succ m => simp [drainLoop, heapPop, hq]
  | succ n ih =>
    intro m s hn hm
    cases hq : s.packetQueue with
    | nil =>
      cases m with
      | zero => simp [drainLoop, heapPop, hq]
      | succ m => simp [drainLoop, heapPop, hq]
    | cons next rest =>
      rw [hq] at hn hm
      simp only [List.length_cons] at hn hm
      cases m with
      | zero => omega
      | succ m =>
        rw [drainLoop, drainLoop]
        simp only [heapPop, hq]
        split
        · apply ih
          · show (pushData w _ next).packetQueue.length ≤ n
            rw [pushData_packetQueue]; exact Nat.le_of_succ_le_succ hn
          · show (pushData w _ next).packetQueue.length ≤ m
            rw [pushData_packetQueue]; exact Nat.le_of_succ_le_succ hm
        · rfl

/-- Claim C4: `Send` returns `ABORT` exactly when the session is closed or
`remoteReadState` is `ABORT`, and then leaves the send queue, `serial` and
`BytesSent` as they were; otherwise, whatever `sendState` is, it returns
`NORMAL`, appends one `DATA` entry (type byte, new serial, payload) to the send
queue, adds one to `serial` and `len(data)` to `BytesSent` (in `uint32` and
`uint64` arithmetic). -/
theorem Send_contract (w : Consts) (s : Session) (data : List Nat) :
    ((Send w s data).2 = ABORT ↔ (s.closed = true ∨ s.remoteReadState = ABORT)) ∧
    (Send w s data).2 = (if s.closed = true ∨ s.remoteReadState = ABORT then ABORT else NORMAL) ∧
    (Send w s data).1.sendQueue =
      (if s.closed = true ∨ s.remoteReadState = ABORT then s.sendQueue
       else s.sendQueue ++ [ToSend.mk Tag.DATA
          ([w.SESSION_PACKET_TYPE_DATA] ++ putU32 ((s.serial + 1) % 2 ^ 32) ++ data)]) ∧
    (Send w s data).1.serial =
      (if s.closed = true ∨ s.remoteReadState = ABORT then s.serial
       else (s.serial + 1) % 2 ^ 32) ∧
    (Send w s data).1.BytesSent =
      (if s.closed = true ∨ s.remoteReadState = ABORT then s.BytesSent
       else (s.BytesSent + data.length) % 2 ^ 64) := by
  unfold Send packData
  by_cases hc : s.closed = true
  · simp [hc]
  · by_cases hr : s.remoteReadState = ABORT
    · simp [hc, hr]
    · simp [hc, hr]

/-- Claim C5 (what the code does at the failing input): on a fresh session,
after the inbound `STATE_ABORT_SEND` packet has been handled, the inbound
`DATA` packet of serial 1 is still delivered: its `DATA` message follows the
`STATE_ABORT_SEND` message. -/
theorem data_delivered_after_abort_send (w : Consts) :
    handleAll w (newSession 0)
        [(0, stateFrame w w.STATE_ABORT_SEND []), (1, dataFrame w ⟨1, [120]⟩)] =
      some { newSession 0 with
        remoteSendState := ABORT, readState := ABORT, incomingSerial := 2, maxIncomingSerial := 1,
        incomingDataCount := 1, BytesRead := 1,
        message := [stateMessage w.STATE_ABORT_SEND, dataMessage ⟨1, [120]⟩] } := by
  simp [handleAll, handleIncoming_stateFrame, handleStatePacket_abortSend,
    handleIncoming_dataFrame, handleDataPacket_frame, admitPacket, noteMaxSerial, drain,
    drainLoop, heapPop, pushData, pushState, newSession, dataMessage, stateMessage]

/-- Claim C17 (what the code does at the failing input): after the arrivals of
serials `2, 2, 1` on a fresh session, `incomingSerial` is 3 and the reorder
queue still holds a packet of serial 2, which is not greater than
`incomingSerial`. -/
theorem stale_packet_left_in_queue (w : Consts) :
    handleAll w (newSession 0)
        [(0, dataFrame w ⟨2, [98]⟩), (0, dataFrame w ⟨2, [98]⟩), (0, dataFrame w ⟨1, [97]⟩)] =
      some { newSession 0 with
        incomingSerial := 3, maxIncomingSerial := 2, incomingDataCount := 3, BytesRead := 2,
        packetQueue := [⟨2, [98]⟩],
        message := [dataMessage ⟨1, [97]⟩, dataMessage ⟨2, [98]⟩] } := by
  simp [handleAll, handleIncoming_dataFrame, handleDataPacket_frame, admitPacket,
    noteMaxSerial, drain, drainLoop, heapPop, heapPush, pushData, pushState, newSession,
    dataMessage]

/-- Claim C18 (what the code does at the failing input): with an INFO packet
recorded at local second 100, `checkRemoteConnectivity` at local second 99
returns `true`: the `uint32` subtraction `99 - 100` wraps to `2 ^ 32 - 1`. -/
theorem checkRemoteConnectivity_clock_backwards :
    checkRemoteConnectivity 99 { newSession 0 with lastRemoteHeartbeatTimeLocal := 100 } = true ∧
    (99 % 2 ^ 32 + 2 ^ 32 - 100 % 2 ^ 32) % 2 ^ 32 = 2 ^ 32 - 1 := by
  constructor
  · decide
  · norm_num

/-- Claim C20 (what the code does at the failing input): on a fresh session
`STATE_FINISH_SEND(at = 1)` sets `readState` to `FINISH` and produces the
`STATE_FINISH_SEND` message at once, before any `DATA` message; the `DATA`
message of serial 1 is produced after it. -/
theorem finish_announced_before_data (w : Consts) :
    handleAll w (newSession 0) [(0, stateFrame w w.STATE_FINISH_SEND (putU32 1))] =
      some { newSession 0 with
        remoteSendState := FINISH, remoteSendFinishAt := 1, readState := FINISH,
        message := [stateMessage w.STATE_FINISH_SEND] } ∧
    handleAll w (newSession 0)
        [(0, stateFrame w w.STATE_FINISH_SEND (putU32 1)), (1, dataFrame w ⟨1, [97]⟩)] =
      some { newSession 0 with
        remoteSendState := FINISH, remoteSendFinishAt := 1, readState := FINISH,
        incomingSerial := 2, maxIncomingSerial := 1, incomingDataCount := 1, BytesRead := 1,
        message := [stateMessage w.STATE_FINISH_SEND, dataMessage ⟨1, [97]⟩,
          stateMessage w.STATE_ABORT_SEND] } := by
  constructor <;>
    simp [handleAll, handleIncoming_stateFrame, handleStatePacket_finishSend,
      handleIncoming_dataFrame, handleDataPacket_frame, readFinishAt_putU32, admitPacket,
      noteMaxSerial, drain, drainLoop, heapPop, heapPush, pushData, pushState, newSession,
      dataMessage, stateMessage]

theorem handleDataPacket_eq_none (w : Consts) (s : Session) (data : List Nat) :
    handleDataPacket w s data = none ↔ data.length < 4 := by
  unfold handleDataPacket
  by_cases h : data.length < 4 <;> simp [h]

theorem handleStatePacket_eq_none (w : Consts) (s : Session) (frame : List Nat) :
    handleStatePacket w s frame = none ↔ frame = [] := by
  cases frame with
  | nil => simp [handleStatePacket]
  | cons state extra =>
    simp only [handleStatePacket, reduceCtorEq, iff_false]
    repeat' split
    all_goals simp

/-- Claim C16 fails as stated: on the empty packet, on a DATA packet with three
bytes after the type byte and on a STATE packet without state byte the handler
does not complete (an index or slice expression is out of range). -/
theorem truncated_packets_fail :
    handleIncoming sampleConsts 0 (newSession 0) [] = none ∧
    handleIncoming sampleConsts 0 (newSession 0)
      [sampleConsts.SESSION_PACKET_TYPE_DATA, 0, 0, 1] = none ∧
    handleIncoming sampleConsts 0 (newSession 0)
      [sampleConsts.SESSION_PACKET_TYPE_STATE] = none := by
  refine ⟨rfl, rfl, rfl⟩

/-- Claim C16, amended: `handleIncoming` completes on every byte sequence except
the empty packet, a DATA packet with fewer than four bytes after the type byte
and a STATE packet without state byte; a packet whose type byte is none of the
three packet types, and a STATE packet whose state byte is none of the four
state codes handled, produces no message and leaves the session as it was. -/
theorem malformed_packet_handling (w : Consts) (now : Nat) (s : Session) (packet : List Nat)
    (t st : Nat) (body : List Nat)
    (ht : t ≠ w.SESSION_PACKET_TYPE_DATA ∧ t ≠ w.SESSION_PACKET_TYPE_STATE ∧
      t ≠ w.SESSION_PACKET_TYPE_INFO)
    (hst : st ≠ w.STATE_FINISH_SEND ∧ st ≠ w.STATE_FINISH_READ ∧ st ≠ w.STATE_ABORT_SEND ∧
      st ≠ w.STATE_ABORT_READ) :
    (handleIncoming w now s packet = none ↔
      (packet = [] ∨
       (∃ data, packet = w.SESSION_PACKET_TYPE_DATA :: data ∧ data.length < 4) ∨
       packet = [w.SESSION_PACKET_TYPE_STATE])) ∧
    handleIncoming w now s (t :: body) = some s ∧
    handleIncoming w now s (w.SESSION_PACKET_TYPE_STATE :: st :: body) = some s := by
  have hne := w.types_ne
  refine ⟨?_, ?_, ?_⟩
  · cases packet with
    | nil => simp [handleIncoming]
    | cons pt rest =>
      unfold handleIncoming
      by_cases h1 : pt = w.SESSION_PACKET_TYPE_DATA
      · subst h1
        simp [handleDataPacket_eq_none, hne.1]
      · by_cases h2 : pt = w.SESSION_PACKET_TYPE_STATE
        · subst h2
          simp [handleStatePacket_eq_none, Ne.symm hne.1]
        · by_cases h3 : pt = w.SESSION_PACKET_TYPE_INFO
          · subst h3
            simp [Ne.symm hne.2.1, Ne.symm hne.2.2]
          · simp [h1, h2, h3]
  · simp [handleIncoming, ht.1, ht.2.1, ht.2.2]
  · simp [handleIncoming, handleStatePacket, Ne.symm hne.1, hst.1, hst.2.1, hst.2.2.1, hst.2.2.2]

theorem malformed_packet_handling_witness :
    (handleIncoming sampleConsts 5 (newSession 0) [1, 0, 0] = none ↔
      ([1, 0, 0] = ([] : List Nat) ∨
       (∃ data, [1, 0, 0] = sampleConsts.SESSION_PACKET_TYPE_DATA :: data ∧ data.length < 4) ∨
       [1, 0, 0] = [sampleConsts.SESSION_PACKET_TYPE_STATE])) ∧
    handleIncoming sampleConsts 5 (newSession 0) (9 :: [7, 7]) = some (newSession 0) ∧
    handleIncoming sampleConsts 5 (newSession 0)
      (sampleConsts.SESSION_PACKET_TYPE_STATE :: 200 :: [7, 7]) = some (newSession 0) :=
  malformed_packet_handling sampleConsts 5 (newSession 0) [1, 0, 0] 9 200 [7, 7]
    (by decide) (by decide)

theorem putU64_split (v : Nat) : putU64 v = putU32 (v / 2 ^ 32) ++ putU32 (v % 2 ^ 32) := by
  simp only [putU64, putU32, List.cons_append, List.nil_append, List.cons.injEq, and_true]
  refine ⟨?_, ?_, ?_, ?_, ?_, ?_, ?_, ?_⟩ <;> first | trivial | omega

theorem beValue_append_putU32 (bs : List Nat) (v : Nat) (h : v < 2 ^ 32) :
    beValue (bs ++ putU32 v) = beValue bs * 2 ^ 32 + v := by
  simp only [beValue, List.foldl_append]
  generalize List.foldl (fun acc b => acc * 256 + b % 256) 0 bs = hi
  simp only [putU32, List.foldl]
  omega

theorem beValue_putU64 (v : Nat) (h : v < 2 ^ 64) : beValue (putU64 v) = v := by
  rw [putU64_split, beValue_append_putU32 _ _ (Nat.mod_lt _ (by norm_num)),
    beValue_putU32 _ (by omega)]
  omega

theorem binaryRead_putU32 (v : Nat) (rest : List Nat) (h : v < 2 ^ 32) :
    binaryRead 4 (putU32 v ++ rest) = (some v, rest) := by
  have hl : 4 ≤ (putU32 v ++ rest).length := by simp [putU32]
  simp only [binaryRead, hl, if_true, take_putU32_append, drop_putU32_append,
    beValue_putU32 v h]

theorem binaryRead_putU64 (v : Nat) (rest : List Nat) (h : v < 2 ^ 64) :
    binaryRead 8 (putU64 v ++ rest) = (some v, rest) := by
  have hl : 8 ≤ (putU64 v ++ rest).length := by simp [putU64]
  have ht : (putU64 v ++ rest).take 8 = putU64 v := by simp [putU64]
  have hd : (putU64 v ++ rest).drop 8 = rest := by simp [putU64]
  simp only [binaryRead, hl, if_true, ht, hd, beValue_putU64 v h]

theorem handleIncoming_info (w : Consts) (now : Nat) (s : Session) (data : List Nat) :
    handleIncoming w now s (w.SESSION_PACKET_TYPE_INFO :: data) =
      some (handleInfoPacket now s data) := by
  have h := w.types_ne
  simp [handleIncoming, Ne.symm h.2.1, Ne.symm h.2.2]

/-- Claim C14: for a sender whose counters are in range and a time `t < 2 ^ 32`,
the INFO packet that `sendInfo` puts on `infoChan` at time `t`, handled by
`handleIncoming` on a receiver with `lastRemoteHeartbeatTime ≤ t`, sets the
receiver's `RemoteBytesRead`, `RemoteBytesSent`, `lastRemoteCurSerial`,
`lastRemoteMaxSerial` to the sender's `BytesRead`, `BytesSent`,
`incomingSerial`, `maxIncomingSerial`, sets `lastRemoteHeartbeatTime` to `t`
(and `lastRemoteHeartbeatTimeLocal` to the receiver's clock) and changes
nothing else. -/
theorem info_round_trip (w : Consts) (sender receiver : Session) (t now : Nat)
    (hrange : sender.incomingSerial < 2 ^ 32 ∧ sender.maxIncomingSerial < 2 ^ 32 ∧
      sender.BytesRead < 2 ^ 64 ∧ sender.BytesSent < 2 ^ 64)
    (ht : t < 2 ^ 32) (hfresh : receiver.lastRemoteHeartbeatTime ≤ t) :
    ∃ packet : List Nat,
      (sendInfo w t sender).infoChan = sender.infoChan ++ [ToSend.mk Tag.INFO packet] ∧
      handleIncoming w now receiver packet =
        some { receiver with
          RemoteBytesRead := sender.BytesRead
          RemoteBytesSent := sender.BytesSent
          lastRemoteHeartbeatTime := t
          lastRemoteHeartbeatTimeLocal := now % 2 ^ 32
          lastRemoteCurSerial := sender.incomingSerial
          lastRemoteMaxSerial := sender.maxIncomingSerial } := by
  obtain ⟨h1, h2, h3, h4⟩ := hrange
  refine ⟨_, rfl, ?_⟩
  have hbody : putU64 sender.BytesSent = putU64 sender.BytesSent ++ [] := by simp
  rw [Nat.mod_eq_of_lt ht]
  simp only [List.singleton_append, List.append_assoc, List.cons_append, List.nil_append]
  rw [handleIncoming_info]
  unfold handleInfoPacket
  rw [hbody]
  simp only [binaryRead_putU32 _ _ ht, binaryRead_putU32 _ _ h1, binaryRead_putU32 _ _ h2,
    binaryRead_putU64 _ _ h3, binaryRead_putU64 _ _ h4, Option.getD_some]
  have hn : ¬ t < receiver.lastRemoteHeartbeatTime := by omega
  simp only [hn, if_false]

theorem info_round_trip_witness :
    ∃ packet : List Nat,
      (sendInfo sampleConsts 1000 { newSession 1 with
          incomingSerial := 7, maxIncomingSerial := 9,
          BytesRead := 300, BytesSent := 70000 }).infoChan =
        [] ++ [ToSend.mk Tag.INFO packet] ∧
      handleIncoming sampleConsts 2000 { newSession 2 with lastRemoteHeartbeatTime := 998 } packet =
        some { newSession 2 with
          RemoteBytesRead := 300
          RemoteBytesSent := 70000
          lastRemoteHeartbeatTime := 1000
          lastRemoteHeartbeatTimeLocal := 2000 % 2 ^ 32
          lastRemoteCurSerial := 7
          lastRemoteMaxSerial := 9 } :=
  info_round_trip sampleConsts
    { newSession 1 with
        incomingSerial := 7, maxIncomingSerial := 9,
        BytesRead := 300, BytesSent := 70000 }
    { newSession 2 with lastRemoteHeartbeatTime := 998 } 1000 2000
    (by decide) (by decide) (by decide)

theorem heartbeatMonotone_closed (w : Consts) : DataPathClosed w HeartbeatMonotone where
  refl := fun s => Nat.le_refl _
  trans := fun s t u h1 h2 => Nat.le_trans h1 h2
  queue := fun s q => Nat.le_refl _
  incoming := fun s n => Nat.le_refl _
  count := fun s n => Nat.le_refl _
  maxIncoming := fun s n => Nat.le_refl _
  push := by
    intro s p
    unfold pushData pushState HeartbeatMonotone
    simp only
    split <;> split <;> exact Nat.le_refl _

theorem handleInfoPacket_monotone (now : Nat) (s : Session) (data : List Nat) :
    HeartbeatMonotone s (handleInfoPacket now s data) := by
  unfold handleInfoPacket HeartbeatMonotone
  simp only
  split
  · exact Nat.le_refl _
  · rename_i h
    exact Nat.le_of_not_lt h

theorem handleStatePacket_monotone (w : Consts) (s s' : Session) (frame : List Nat)
    (h : handleStatePacket w s frame = some s') : HeartbeatMonotone s s' := by
  unfold handleStatePacket at h
  split at h
  · exact absurd h (by simp)
  · unfold pushState at h
    simp only at h
    repeat' split at h
    all_goals
      simp only [Option.some.injEq] at h
      subst h
      exact Nat.le_refl _

theorem handleIncoming_monotone (w : Consts) (now : Nat) (s s' : Session) (packet : List Nat)
    (h : handleIncoming w now s packet = some s') : HeartbeatMonotone s s' := by
  unfold handleIncoming at h
  split at h
  · exact absurd h (by simp)
  · split at h
    · exact handleDataPacket_closed w HeartbeatMonotone (heartbeatMonotone_closed w) s s' _ h
    · split at h
      · exact handleStatePacket_monotone w s s' _ h
      · split at h
        · simp only [Option.some.injEq] at h
          subst h
          exact handleInfoPacket_monotone now s _
        · simp only [Option.some.injEq] at h
          subst h
          exact Nat.le_refl _

/-- Claim C15: an INFO packet whose timestamp is strictly less than
`lastRemoteHeartbeatTime` is discarded: `handleInfoPacket` (and `handleIncoming`
on that packet) returns the session unchanged, so no field changes and no
message is produced; and whatever inbound packet is handled, stale or not,
`lastRemoteHeartbeatTime` does not decrease. -/
theorem stale_info_discarded (w : Consts) (now : Nat) (s : Session) (data : List Nat)
    (hstale : infoTimestamp data < s.lastRemoteHeartbeatTime) :
    handleInfoPacket now s data = s ∧
    handleIncoming w now s (w.SESSION_PACKET_TYPE_INFO :: data) = some s ∧
    (∀ (now' : Nat) (packet : List Nat) (s' : Session),
      handleIncoming w now' s packet = some s' →
      s.lastRemoteHeartbeatTime ≤ s'.lastRemoteHeartbeatTime) := by
  have h1 : handleInfoPacket now s data = s := by
    unfold handleInfoPacket
    unfold infoTimestamp at hstale
    simp only [hstale, if_true]
  refine ⟨h1, ?_, ?_⟩
  · rw [handleIncoming_info, h1]
  · intro now' packet s' h
    exact handleIncoming_monotone w now' s s' packet h

theorem stale_info_discarded_witness :
    handleInfoPacket 50 { newSession 0 with lastRemoteHeartbeatTime := 1000 }
        (putU32 999 ++ putU32 7 ++ putU32 9 ++ putU64 1 ++ putU64 2) =
      { newSession 0 with lastRemoteHeartbeatTime := 1000 } :=
  (stale_info_discarded sampleConsts 50 { newSession 0 with lastRemoteHeartbeatTime := 1000 }
    (putU32 999 ++ putU32 7 ++ putU32 9 ++ putU64 1 ++ putU64 2) (by decide)).1

theorem dataBytes_append (a b : List Message) :
    dataBytes (a ++ b) = dataBytes a + dataBytes b := by
  simp [dataBytes]

theorem keepsBytesRead_closed (w : Consts) : DataPathClosed w KeepsBytesRead where
  refl := fun s h => h
  trans := fun s t u h1 h2 h => h2 (h1 h)
  queue := fun s q h => h
  incoming := fun s n h => h
  count := fun s n h => h
  maxIncoming := fun s n h => h
  push := by
    intro s p h
    unfold BytesReadInv at h
    unfold pushData pushState BytesReadInv
    simp only
    split <;> split <;>
      simp only [dataBytes_append, h] <;>
      simp [dataBytes]

theorem handleStatePacket_bytesRead (w : Consts) (s s' : Session) (frame : List Nat)
    (h : handleStatePacket w s frame = some s') : KeepsBytesRead s s' := by
  intro hinv
  unfold BytesReadInv at hinv
  unfold handleStatePacket at h
  split at h
  · exact absurd h (by simp)
  · unfold pushState at h
    simp only at h
    repeat' split at h
    all_goals
      simp only [Option.some.injEq] at h
      subst h
      unfold BytesReadInv
      simp only [dataBytes_append, hinv]
      try simp [dataBytes]

theorem handleInfoPacket_bytesRead (now : Nat) (s : Session) (data : List Nat) :
    KeepsBytesRead s (handleInfoPacket now s data) := by
  intro hinv
  unfold handleInfoPacket
  simp only
  split
  · exact hinv
  · exact hinv

theorem handleIncoming_bytesRead (w : Consts) (now : Nat) (s s' : Session) (packet : List Nat)
    (h : handleIncoming w now s packet = some s') : KeepsBytesRead s s' := by
  unfold handleIncoming at h
  split at h
  · exact absurd h (by simp)
  · split at h
    · exact handleDataPacket_closed w KeepsBytesRead (keepsBytesRead_closed w) s s' _ h
    · split at h
      · exact handleStatePacket_bytesRead w s s' _ h
      · split at h
        · simp only [Option.some.injEq] at h
          subst h
          exact handleInfoPacket_bytesRead now s _
        · simp only [Option.some.injEq] at h
          subst h
          exact fun hinv => hinv

theorem handleAll_bytesRead (w : Consts) (packets : List (Nat × List Nat)) :
    ∀ s s' : Session, handleAll w s packets = some s' → BytesReadInv s → BytesReadInv s' := by
  induction packets with
  | nil =>
    intro s s' h hinv
    simp only [handleAll, Option.some.injEq] at h
    subst h
    exact hinv
  | cons x rest ih =>
    intro s s' h hinv
    obtain ⟨now, packet⟩ := x
    simp only [handleAll] at h
    split at h
    · exact absurd h (by simp)
    · rename_i s1 h1
      exact ih s1 s' h (handleIncoming_bytesRead w now s s1 packet h1 hinv)

/-- Claim C13: in every state reached from a fresh session by handling inbound
packets of any kind, `BytesRead` equals, modulo `2 ^ 64`, the sum of the payload
lengths of all `DATA` messages produced so far, those delivered from the
reorder queue included. -/
theorem bytesRead_counts_delivered (w : Consts) (id : Nat) (packets : List (Nat × List Nat))
    (s : Session) (hreach : handleAll w (newSession id) packets = some s) :
    s.BytesRead = dataBytes s.message % 2 ^ 64 :=
  handleAll_bytesRead w packets (newSession id) s hreach (by
    simp [BytesReadInv, newSession, dataBytes])

theorem bytesRead_counts_delivered_witness :
    ({ newSession 0 with
        remoteSendState := FINISH, remoteSendFinishAt := 9,
        incomingSerial := 3, maxIncomingSerial := 2, incomingDataCount := 2, BytesRead := 5,
        message := [dataMessage ⟨1, [97, 97, 97]⟩, dataMessage ⟨2, [98, 98]⟩] } : Session).BytesRead =
      dataBytes [dataMessage ⟨1, [97, 97, 97]⟩, dataMessage ⟨2, [98, 98]⟩] % 2 ^ 64 :=
  bytesRead_counts_delivered sampleConsts 0
    [(0, dataFrame sampleConsts ⟨2, [98, 98]⟩),
     (1, stateFrame sampleConsts sampleConsts.STATE_FINISH_SEND (putU32 9)),
     (2, dataFrame sampleConsts ⟨1, [97, 97, 97]⟩)] _ rfl

theorem keepsBothClosed_closed (w : Consts) : DataPathClosed w KeepsBothClosed where
  refl := fun s h => h
  trans := fun s t u h1 h2 h => h2 (h1 h)
  queue := fun s q h => h
  incoming := fun s n h => h
  count := fun s n h => h
  maxIncoming := fun s n h => h
  push := by
    intro s p h
    obtain ⟨h1, h2⟩ := h
    unfold pushData pushState BothClosed
    simp only
    split <;> split <;> simp [h1, h2]

theorem handleStatePacket_bothClosed (w : Consts) (s s' : Session) (frame : List Nat)
    (h : handleStatePacket w s frame = some s') : KeepsBothClosed s s' := by
  intro hinv
  obtain ⟨h1, h2⟩ := hinv
  unfold handleStatePacket at h
  split at h
  · exact absurd h (by simp)
  · unfold pushState at h
    simp only at h
    repeat' split at h
    all_goals
      simp only [Option.some.injEq] at h
      subst h
      unfold BothClosed
      simp [h1, h2]

theorem handleIncoming_bothClosed (w : Consts) (now : Nat) (s s' : Session) (packet : List Nat)
    (h : handleIncoming w now s packet = some s') : KeepsBothClosed s s' := by
  unfold handleIncoming at h
  split at h
  · exact absurd h (by simp)
  · split at h
    · exact handleDataPacket_closed w KeepsBothClosed (keepsBothClosed_closed w) s s' _ h
    · split at h
      · exact handleStatePacket_bothClosed w s s' _ h
      · split at h
        · simp only [Option.some.injEq] at h
          subst h
          intro hinv
          unfold handleInfoPacket
          simp only
          split <;> exact hinv
        · simp only [Option.some.injEq] at h
          subst h
          exact fun hinv => hinv

theorem step_bothClosed (w : Consts) (s s' : Session) (e : Event)
    (h : step w s e = some s') (hinv : BothClosed s) : BothClosed s' := by
  obtain ⟨h1, h2⟩ := hinv
  cases e with
  | incoming now packet => exact handleIncoming_bothClosed w now s s' packet h ⟨h1, h2⟩
  | send data =>
    simp only [step, Option.some.injEq] at h
    subst h
    unfold Send packData BothClosed
    simp only
    split
    · exact ⟨h1, h2⟩
    · split
      · exact ⟨h1, h2⟩
      · exact ⟨h1, h2⟩
  | finishSend | finishRead | finish | abortSend | abortRead | abort | stop =>
    simp only [step, Option.some.injEq] at h
    subst h
    simp [BothClosed, FinishSend, FinishRead, Finish, AbortSend, AbortRead, Abort, Stop, h1, h2]

theorem runEvents_bothClosed (w : Consts) (events : List Event) :
    ∀ s s' : Session, runEvents w s events = some s' → BothClosed s → BothClosed s' := by
  induction events with
  | nil =>
    intro s s' h hinv
    simp only [runEvents, Option.some.injEq] at h
    subst h
    exact hinv
  | cons e rest ih =>
    intro s s' h hinv
    simp only [runEvents] at h
    split at h
    · exact absurd h (by simp)
    · rename_i s1 h1
      exact ih s1 s' h (step_bothClosed w s s1 e h1 hinv)

theorem checkState_of_bothClosed (s : Session) (h : BothClosed s) : checkState s = true := by
  obtain ⟨h1, h2⟩ := h
  unfold checkState
  cases hs : s.sendState <;> cases hr : s.readState <;> simp_all

/-- Claim C11: after a local `Abort()`, called in any session state, and any
subsequent sequence of handled inbound packets and public calls (`Send`,
`FinishSend`, `FinishRead`, `Finish`, `AbortSend`, `AbortRead`, `Abort`,
`Stop`), `sendState` and `readState` are each `FINISH` or `ABORT`, `checkState`
returns true and the heartbeat arm of the run loop decides to leave the loop. -/
theorem abort_terminal (w : Consts) (s s' : Session) (events : List Event)
    (nowInfo nowCheck : Nat) (hrun : runEvents w (Abort w s) events = some s') :
    (s'.sendState = FINISH ∨ s'.sendState = ABORT) ∧
    (s'.readState = FINISH ∨ s'.readState = ABORT) ∧
    checkState s' = true ∧
    (heartBeat w nowInfo nowCheck s').2 = true := by
  have h0 : BothClosed (Abort w s) := by
    simp [BothClosed, Abort, AbortRead, AbortSend]
  have h := runEvents_bothClosed w events (Abort w s) s' hrun h0
  have hc := checkState_of_bothClosed s' h
  obtain ⟨h1, h2⟩ := h
  refine ⟨?_, ?_, hc, ?_⟩
  · cases hs : s'.sendState <;> simp_all
  · cases hr : s'.readState <;> simp_all
  · have hc' : checkState (sendInfo w nowInfo s') = true := hc
    simp [heartBeat, hc']

theorem abort_terminal_witness :
    checkState
      { newSession 0 with
        sendState := FINISH, readState := ABORT, remoteSendState := FINISH,
        remoteSendFinishAt := 9, incomingSerial := 2, maxIncomingSerial := 1,
        incomingDataCount := 1, BytesRead := 1, message := [dataMessage ⟨1, [97]⟩],
        sendQueue := [ToSend.mk Tag.STATE (packState sampleConsts sampleConsts.STATE_ABORT_SEND []),
          ToSend.mk Tag.STATE (packState sampleConsts sampleConsts.STATE_ABORT_READ []),
          ToSend.mk Tag.STATE (packState sampleConsts sampleConsts.STATE_FINISH_SEND (putU32 0))] } =
      true :=
  (abort_terminal sampleConsts (newSession 0) _
    [Event.incoming 1 (stateFrame sampleConsts sampleConsts.STATE_FINISH_SEND (putU32 9)),
     Event.incoming 2 (dataFrame sampleConsts ⟨1, [97]⟩), Event.finishSend] 5 6 rfl).2.2.1

theorem pushData_incomingSerial (w : Consts) (s : Session) (p : Packet) :
    (pushData w s p).incomingSerial = s.incomingSerial := by
  unfold pushData pushState
  simp only
  split <;> split <;> rfl

theorem pushData_maxIncomingSerial (w : Consts) (s : Session) (p : Packet) :
    (pushData w s p).maxIncomingSerial = s.maxIncomingSerial := by
  unfold pushData pushState
  simp only
  split <;> split <;> rfl

theorem heapPush_sorted_le (q : List Packet) (p : Packet)
    (hq : q.Pairwise (fun a b => a.serial ≤ b.serial)) :
    (heapPush q p).Pairwise (fun a b => a.serial ≤ b.serial) := by
  induction q with
  | nil => simp [heapPush]
  | cons x rest ih =>
    rw [List.pairwise_cons] at hq
    unfold heapPush
    split
    · rename_i hle
      refine List.pairwise_cons.mpr ⟨?_, List.pairwise_cons.mpr hq⟩
      intro y hy
      rcases List.mem_cons.mp hy with rfl | hy
      · exact hle
      · exact Nat.le_trans hle (hq.1 y hy)
    · rename_i hle
      refine List.pairwise_cons.mpr ⟨?_, ih hq.2⟩
      intro y hy
      rcases List.mem_cons.mp ((heapPush_perm rest p).subset hy) with rfl | hy
      · omega
      · exact hq.1 y hy

theorem heapPush_head (tl : List Packet) (hd : Packet)
    (h : (hd :: tl).Pairwise (fun a b => a.serial ≤ b.serial)) : heapPush tl hd = hd :: tl := by
  cases tl with
  | nil => rfl
  | cons x rest =>
    have hle : hd.serial ≤ x.serial := (List.pairwise_cons.mp h).1 x (List.mem_cons_self _ _)
    simp [heapPush, hle]

theorem drainLoop_settled (w : Consts) :
    ∀ (fuel : Nat) (s : Session), s.packetQueue.length ≤ fuel → Ordered s →
      Settled (drainLoop w fuel s) := by
  intro fuel
  induction fuel with
  | zero =>
    intro s hlen ho
    have hq : s.packetQueue = [] := List.length_eq_zero.mp (Nat.le_zero.mp hlen)
    refine ⟨ho, ?_⟩
    simp [drainLoop, hq]
  | succ n ih =>
    intro s hlen ho
    obtain ⟨hsorted, hmax, hinc, hlt⟩ := ho
    cases hq : s.packetQueue with
    | nil =>
      rw [drainLoop]
      simp only [heapPop, hq]
      exact ⟨⟨hsorted, hmax, hinc, hlt⟩, by simp [hq]⟩
    | cons next rest =>
      rw [hq] at hlen hsorted hmax
      simp only [List.length_cons] at hlen
      rw [drainLoop]
      simp only [heapPop, hq]
      split
      · rename_i heq
        apply ih
        · show (pushData w _ next).packetQueue.length ≤ n
          rw [pushData_packetQueue]
          exact Nat.le_of_succ_le_succ hlen
        · have hnext := hmax next (List.mem_cons_self _ _)
          refine ⟨?_, ?_, ?_, ?_⟩
          · show (pushData w _ next).packetQueue.Pairwise _
            rw [pushData_packetQueue]
            exact (List.pairwise_cons.mp hsorted).2
          · show ∀ p ∈ (pushData w _ next).packetQueue, p.serial ≤ (pushData w _ next).maxIncomingSerial
            rw [pushData_packetQueue, pushData_maxIncomingSerial]
            exact fun p hp => hmax p (List.mem_cons_of_mem _ hp)
          · show ((pushData w _ next).incomingSerial + 1) % 2 ^ 32 ≤
              (pushData w _ next).maxIncomingSerial + 1
            rw [pushData_incomingSerial, pushData_maxIncomingSerial]
            have := Nat.mod_le (s.incomingSerial + 1) (2 ^ 32)
            have heq' : next.serial = s.incomingSerial := heq
            show (s.incomingSerial + 1) % 2 ^ 32 ≤ s.maxIncomingSerial + 1
            omega
          · exact Nat.mod_lt _ (by norm_num)
      · rename_i hne
        have hpush : heapPush rest next = next :: rest := heapPush_head rest next hsorted
        refine ⟨⟨?_, ?_, hinc, hlt⟩, ?_⟩
        · show (heapPush rest next).Pairwise _
          rw [hpush]; exact hsorted
        · show ∀ p ∈ heapPush rest next, p.serial ≤ s.maxIncomingSerial
          rw [hpush]; exact hmax
        · show ∀ hd ∈ (heapPush rest next).head?, hd.serial ≠ s.incomingSerial
          rw [hpush]
          intro hd hhd
          simp only [List.head?_cons, Option.mem_def, Option.some.injEq] at hhd
          subst hhd
          exact hne

theorem drain_of_settled (w : Consts) (s : Session) (h : Settled s) : drain w s = s := by
  obtain ⟨⟨hsorted, _, _, _⟩, hhead⟩ := h
  unfold drain
  cases hq : s.packetQueue with
  | nil => simp [drainLoop]
  | cons hd tl =>
    have hne : hd.serial ≠ s.incomingSerial := hhead hd (by rw [hq]; rfl)
    rw [hq] at hsorted
    simp only [List.length_cons]
    rw [drainLoop]
    simp only [heapPop, hq, hne, if_false, heapPush_head tl hd hsorted]
    rw [← hq]

theorem admitPacket_ordered (w : Consts) (s : Session) (p : Packet) (h : Ordered s) :
    Ordered (noteMaxSerial (admitPacket w s p) p.serial) := by
  obtain ⟨hsorted, hmax, hinc, hlt⟩ := h
  unfold admitPacket
  split
  · rename_i heq
    have hq : ({ pushData w s p with
        incomingSerial := ((pushData w s p).incomingSerial + 1) % 2 ^ 32 } : Session).packetQueue =
        s.packetQueue := pushData_packetQueue w s p
    have hm : ({ pushData w s p with
        incomingSerial := ((pushData w s p).incomingSerial + 1) % 2 ^ 32 } : Session).maxIncomingSerial
        = s.maxIncomingSerial := pushData_maxIncomingSerial w s p
    have hi : ({ pushData w s p with
        incomingSerial := ((pushData w s p).incomingSerial + 1) % 2 ^ 32 } : Session).incomingSerial
        = (s.incomingSerial + 1) % 2 ^ 32 := by
      show ((pushData w s p).incomingSerial + 1) % 2 ^ 32 = _
      rw [pushData_incomingSerial]
    have hmod := Nat.mod_le (s.incomingSerial + 1) (2 ^ 32)
    have hmodlt : (s.incomingSerial + 1) % 2 ^ 32 < 2 ^ 32 := Nat.mod_lt _ (by norm_num)
    unfold noteMaxSerial
    split
    · rename_i hgt
      rw [hm] at hgt
      refine ⟨?_, ?_, ?_, ?_⟩
      · show Session.packetQueue _ |>.Pairwise _
        rw [hq]; exact hsorted
      · show ∀ x ∈ Session.packetQueue _, x.serial ≤ p.serial
        rw [hq]
        intro x hx
        have := hmax x hx
        omega
      · show Session.incomingSerial _ ≤ p.serial + 1
        rw [hi]; omega
      · show Session.incomingSerial _ < 2 ^ 32
        rw [hi]; exact hmodlt
    · rename_i hle
      rw [hm] at hle
      refine ⟨?_, ?_, ?_, ?_⟩
      · rw [hq]; exact hsorted
      · rw [hq, hm]; exact hmax
      · rw [hi, hm]; omega
      · rw [hi]; exact hmodlt
  · split
    · rename_i hne hgt
      unfold noteMaxSerial
      split
      · rename_i hmx
        have hmx' : p.serial > s.maxIncomingSerial := hmx
        refine ⟨heapPush_sorted_le _ _ hsorted, ?_, ?_, hlt⟩
        · intro x hx
          show x.serial ≤ p.serial
          rcases List.mem_cons.mp ((heapPush_perm _ _).subset hx) with rfl | hx
          · exact Nat.le_refl _
          · have := hmax x hx
            omega
        · show s.incomingSerial ≤ p.serial + 1
          omega
      · rename_i hmx
        have hmx' : ¬ p.serial > s.maxIncomingSerial := hmx
        refine ⟨heapPush_sorted_le _ _ hsorted, ?_, hinc, hlt⟩
        intro x hx
        show x.serial ≤ s.maxIncomingSerial
        rcases List.mem_cons.mp ((heapPush_perm _ _).subset hx) with rfl | hx
        · omega
        · exact hmax x hx
    · unfold noteMaxSerial
      split
      · rename_i hmx
        have hmx' : p.serial > s.maxIncomingSerial := hmx
        refine ⟨hsorted, ?_, ?_, hlt⟩
        · intro x hx
          show x.serial ≤ p.serial
          have := hmax x hx
          omega
        · show s.incomingSerial ≤ p.serial + 1
          omega
      · exact ⟨hsorted, hmax, hinc, hlt⟩

theorem handleDataPacket_settled (w : Consts) (s s' : Session) (data : List Nat)
    (h : handleDataPacket w s data = some s') (hs : Settled s) : Settled s' := by
  unfold handleDataPacket at h
  split at h
  · exact absurd h (by simp)
  · simp only [Option.some.injEq] at h
    subst h
    unfold drain
    apply drainLoop_settled w _ _ (Nat.le_refl _)
    exact admitPacket_ordered w _ _ hs.1

theorem handleStatePacket_settled (w : Consts) (s s' : Session) (frame : List Nat)
    (h : handleStatePacket w s frame = some s') (hs : Settled s) : Settled s' := by
  unfold handleStatePacket at h
  split at h
  · exact absurd h (by simp)
  · unfold pushState at h
    simp only at h
    repeat' split at h
    all_goals
      simp only [Option.some.injEq] at h
      subst h
      exact hs

theorem handleIncoming_settled (w : Consts) (now : Nat) (s s' : Session) (packet : List Nat)
    (h : handleIncoming w now s packet = some s') (hs : Settled s) : Settled s' := by
  unfold handleIncoming at h
  split at h
  · exact absurd h (by simp)
  · split at h
    · exact handleDataPacket_settled w s s' _ h hs
    · split at h
      · exact handleStatePacket_settled w s s' _ h hs
      · split at h
        · simp only [Option.some.injEq] at h
          subst h
          unfold handleInfoPacket
          simp only
          split <;> exact hs
        · simp only [Option.some.injEq] at h
          subst h
          exact hs

theorem handleAll_settled (w : Consts) (packets : List (Nat × List Nat)) :
    ∀ s s' : Session, handleAll w s packets = some s' → Settled s → Settled s' := by
  induction packets with
  | nil =>
    intro s s' h hs
    simp only [handleAll, Option.some.injEq] at h
    subst h
    exact hs
  | cons x rest ih =>
    intro s s' h hs
    obtain ⟨now, packet⟩ := x
    simp only [handleAll] at h
    split at h
    · exact absurd h (by simp)
    · rename_i s1 h1
      exact ih s1 s' h (handleIncoming_settled w now s s1 packet h1 hs)

theorem newSession_settled (id : Nat) : Settled (newSession id) := by
  refine ⟨⟨?_, ?_, ?_, ?_⟩, ?_⟩ <;> simp [newSession]

/-- Claim C12: in every state reached from a fresh session by handling inbound
packets of any kind, handling a `DATA` packet whose serial is strictly less
than `incomingSerial` completes and changes nothing but the packet counter
`incomingDataCount`: no message (neither `DATA` nor `STATE`) is produced, and
`incomingSerial`, `maxIncomingSerial`, `BytesRead`, the half-states and the
reorder queue are as before. -/
theorem obsolete_data_ignored (w : Consts) (id now : Nat) (packets : List (Nat × List Nat))
    (s : Session) (p : Packet) (hreach : handleAll w (newSession id) packets = some s)
    (hold : p.serial < s.incomingSerial) :
    handleIncoming w now s (dataFrame w p) =
      some { s with incomingDataCount := (s.incomingDataCount + 1) % 2 ^ 32 } := by
  have hs := handleAll_settled w packets (newSession id) s hreach (newSession_settled id)
  have hinc := hs.1.2.2.1
  have hlt := hs.1.2.2.2
  rw [handleIncoming_dataFrame, handleDataPacket_frame w s p.serial p.data (by omega)]
  have hkeep : admitPacket w { s with incomingDataCount := (s.incomingDataCount + 1) % 2 ^ 32 }
      ⟨p.serial, p.data⟩ = { s with incomingDataCount := (s.incomingDataCount + 1) % 2 ^ 32 } := by
    unfold admitPacket
    have h1 : ¬ p.serial = s.incomingSerial := by omega
    have h2 : ¬ p.serial > s.incomingSerial := by omega
    simp only [h1, h2, if_false]
  have hnote : noteMaxSerial { s with incomingDataCount := (s.incomingDataCount + 1) % 2 ^ 32 }
      p.serial = { s with incomingDataCount := (s.incomingDataCount + 1) % 2 ^ 32 } := by
    unfold noteMaxSerial
    have h3 : ¬ p.serial > s.maxIncomingSerial := by omega
    simp only [h3, if_false]
  rw [hkeep, hnote]
  exact congrArg some (drain_of_settled w _ hs)

theorem obsolete_data_ignored_witness :
    handleIncoming sampleConsts 9
      { newSession 0 with
        incomingSerial := 2, maxIncomingSerial := 3, incomingDataCount := 2, BytesRead := 1,
        packetQueue := [⟨3, [99]⟩], message := [dataMessage ⟨1, [97]⟩] }
      (dataFrame sampleConsts ⟨1, [97]⟩) =
    some { newSession 0 with
        incomingSerial := 2, maxIncomingSerial := 3, incomingDataCount := (2 + 1) % 2 ^ 32,
        BytesRead := 1, packetQueue := [⟨3, [99]⟩], message := [dataMessage ⟨1, [97]⟩] } :=
  obsolete_data_ignored sampleConsts 0 9
    [(0, dataFrame sampleConsts ⟨3, [99]⟩), (1, dataFrame sampleConsts ⟨1, [97]⟩)] _ ⟨1, [97]⟩
    rfl (by decide)

theorem deliverStep_fifo (d d' : Deliver) (e : DeliverEvent)
    (h : deliverStep d e = some d') (hinv : Fifo d) : Fifo d' := by
  unfold Fifo at hinv
  unfold deliverStep at h
  split at h
  · exact absurd h (by simp)
  · cases e with
    | accept value =>
      simp only [Option.some.injEq] at h
      subst h
      simp [Fifo, hinv]
    | handOver =>
      simp only at h
      split at h
      · exact absurd h (by simp)
      · rename_i value hlast
        simp only [Option.some.injEq] at h
        subst h
        have hsplit := List.dropLast_append_getLast? value hlast
        unfold Fifo
        show d.received = d.delivered ++ [value] ++ d.messageBuffer.dropLast.reverse
        rw [hinv]
        conv_lhs => rw [← hsplit]
        simp
    | stopDeliver =>
      simp only [Option.some.injEq] at h
      subst h
      exact hinv

theorem startMessageDeliver_fifo (events : List DeliverEvent) :
    ∀ d d' : Deliver, startMessageDeliver d events = some d' → Fifo d → Fifo d' := by
  induction events with
  | nil =>
    intro d d' h hinv
    simp only [startMessageDeliver, Option.some.injEq] at h
    subst h
    exact hinv
  | cons e rest ih =>
    intro d d' h hinv
    simp only [startMessageDeliver] at h
    split at h
    · exact absurd h (by simp)
    · rename_i d1 h1
      exact ih d1 d' h (deliverStep_fifo d d1 e h1 hinv)

/-- Claim C19: for every interleaving of accept and hand-over steps of the
delivery worker starting from the empty buffer, the messages handed to the
consumer are a prefix of the messages accepted, in the same order, and the
accepted sequence is the handed-over sequence followed by the buffer read from
back to front. -/
theorem delivery_buffer_fifo (events : List DeliverEvent) (d : Deliver)
    (hrun : startMessageDeliver newDeliver events = some d) :
    d.delivered <+: d.received ∧ d.received = d.delivered ++ d.messageBuffer.reverse := by
  have h : Fifo d := startMessageDeliver_fifo events newDeliver d hrun (by simp [Fifo, newDeliver])
  exact ⟨⟨d.messageBuffer.reverse, h.symm⟩, h⟩

theorem delivery_buffer_fifo_witness :
    [dataMessage ⟨1, [97]⟩] <+: [dataMessage ⟨1, [97]⟩, stateMessage 0, dataMessage ⟨2, [98]⟩] ∧
    [dataMessage ⟨1, [97]⟩, stateMessage 0, dataMessage ⟨2, [98]⟩] =
      [dataMessage ⟨1, [97]⟩] ++ [dataMessage ⟨2, [98]⟩, stateMessage 0].reverse :=
  delivery_buffer_fifo
    [DeliverEvent.accept (dataMessage ⟨1, [97]⟩), DeliverEvent.accept (stateMessage 0),
     DeliverEvent.handOver, DeliverEvent.accept (dataMessage ⟨2, [98]⟩)]
    { messageBuffer := [dataMessage ⟨2, [98]⟩, stateMessage 0],
      received := [dataMessage ⟨1, [97]⟩, stateMessage 0, dataMessage ⟨2, [98]⟩],
      delivered := [dataMessage ⟨1, [97]⟩], returned := false } rfl

end Gnet
